import Mathlib

/-!
Verification of the Equilibria consensus core: a shallow embedding of the
block-reward calculator (`cryptonote_tx_utils.cpp`), the service-node
registry (`service_node_list.cpp`) and the transaction memory pool
(`tx_pool.cpp`), together with theorems settling the specified properties.

Machine integers are modelled as `Nat` with explicit reduction modulo
`2 ^ 64` at the operations where the C++ `uint64_t` arithmetic can wrap.
-/

namespace Equilibria

/-- `2 ^ 64`, the modulus of the C++ `uint64_t` arithmetic. -/
def U64 : Nat := 18446744073709551616

/-- The largest `uint32_t` value, `UINT32_MAX`. -/
def U32MAX : Nat := 4294967295

/-- The largest `uint64_t` value, `UINT64_MAX`. -/
def U64MAX : Nat := U64 - 1

/-- `uint64_t` addition (wraps modulo `2 ^ 64`). -/
def u64add (a b : Nat) : Nat := (a + b) % U64

/-- `uint64_t` subtraction (wraps modulo `2 ^ 64`). -/
def u64sub (a b : Nat) : Nat := (a + (U64 - b % U64)) % U64

theorem U64_pos : 0 < U64 := by decide

theorem u64add_eq_of_lt {a b : Nat} (h : a + b < U64) : u64add a b = a + b := by
  unfold u64add
  exact Nat.mod_eq_of_lt h

theorem u64sub_eq_of_le {a b : Nat} (hb : b ≤ a) (ha : a < U64) : u64sub a b = a - b := by
  unfold u64sub
  have hbU : b < U64 := Nat.lt_of_le_of_lt hb ha
  rw [Nat.mod_eq_of_lt hbU]
  have h1 : a + (U64 - b) = U64 + (a - b) := by omega
  rw [h1, Nat.add_mod_left]
  exact Nat.mod_eq_of_lt (by omega)

theorem u64add_lt (a b : Nat) : u64add a b < U64 := Nat.mod_lt _ (by decide)

theorem u64sub_lt (a b : Nat) : u64sub a b < U64 := Nat.mod_lt _ (by decide)

/-- Modelled from the spec: the fixed staking denominator `STAKING_PORTIONS`
(defined in `cryptonote_config.h`, which is not part of the sources at hand);
the spec gives it as `2^64 − 2^64 mod 1000000000000`. -/
def STAKING_PORTIONS : Nat := U64 - U64 % 1000000000000

/-- Modelled from the spec: the service-node activation hard fork
(`SERVICE_NODE_VERSION` in `cryptonote_config.h`, not part of the sources at
hand); the spec activates the registry and the reward split at hard fork 5. -/
def SERVICE_NODE_VERSION : Nat := 5

theorem STAKING_PORTIONS_pos : 0 < STAKING_PORTIONS := by decide

/-! ### Reward calculator (`cryptonote_tx_utils.cpp`) -/

/-- `service_node_reward_formula` from `cryptonote_tx_utils.cpp`: the
service-node share of the adjusted base reward; the implicit C++ promotion
keeps `base_reward / 4 * 3` inside `uint64_t`. -/
def service_node_reward_formula (base_reward : Nat) (hard_fork_version : Nat) : Nat :=
  if 11 < hard_fork_version then base_reward / 4 * 3
  else if SERVICE_NODE_VERSION ≤ hard_fork_version then base_reward / 2
  else 0

/-- `get_portion_of_reward` from `cryptonote_tx_utils.cpp`: `mul128` of the
reward by the portions, `div128_64` by `STAKING_PORTIONS`, low 64 bits kept. -/
def get_portion_of_reward (portions total_service_node_reward : Nat) : Nat :=
  total_service_node_reward * portions / STAKING_PORTIONS % U64

/-- `block_reward_parts` from `cryptonote_tx_utils.h`, the output record
of `get_equilibria_block_reward`. -/
structure block_reward_parts where
  original_base_reward : Nat := 0
  adjusted_base_reward : Nat := 0
  service_node_total : Nat := 0
  operator_reward : Nat := 0
  staker_reward : Nat := 0
  base_miner : Nat := 0
  base_miner_fee : Nat := 0
  governance : Nat := 0
  dev_fund : Nat := 0
  service_node_paid : Nat := 0
deriving DecidableEq, Repr

/-- `null_address` (`service_node_list.h`): addresses are modelled as `Nat`
identifiers with `0` standing for the all-zero null address. -/
def null_address : Nat := 0

/-- `null_winner` from `service_node_list.h`: the single pair
`(null_address, STAKING_PORTIONS)`. -/
def null_winner : List (Nat × Nat) := [(null_address, STAKING_PORTIONS)]

/-- Loop body of `calculate_sum_of_portions` (`cryptonote_tx_utils.cpp`),
recursing over the winner-info list while tracking the running index `i`. -/
def calculate_sum_of_portions_from (brr : block_reward_parts) (hf_version : Nat) :
    List (Nat × Nat) → Nat → Nat → Nat
  | [], _, reward => reward
  | (_, p) :: rest, i, reward =>
    let part :=
      if 17 ≤ hf_version then get_portion_of_reward p brr.service_node_total
      else if 12 ≤ hf_version then
        if i = 0 then get_portion_of_reward p brr.operator_reward
        else get_portion_of_reward p brr.staker_reward
      else get_portion_of_reward p brr.service_node_total
    calculate_sum_of_portions_from brr hf_version rest (i + 1) (u64add reward part)

/-- `calculate_sum_of_portions` from `cryptonote_tx_utils.cpp`. -/
def calculate_sum_of_portions (portions : List (Nat × Nat)) (brr : block_reward_parts)
    (hf_version : Nat) : Nat :=
  calculate_sum_of_portions_from brr hf_version portions 0 0

/-- The post-`already_generated_coins` branch of `get_equilibria_block_reward`
(`cryptonote_tx_utils.cpp`, lines 584–601): adjusted base reward, service-node
split and payout sum for the given winner info. -/
def equilibria_success_parts (original governance dev_fund hard_fork_version fee : Nat)
    (snode_winner_info : List (Nat × Nat)) : block_reward_parts :=
  let adjusted := u64sub original (u64add governance dev_fund)
  let total := service_node_reward_formula adjusted hard_fork_version
  let operator_reward := total / 2
  let staker_reward := total - operator_reward
  let parts0 : block_reward_parts :=
    { original_base_reward := original, adjusted_base_reward := adjusted,
      service_node_total := total, operator_reward := operator_reward,
      staker_reward := staker_reward, governance := governance, dev_fund := dev_fund }
  let paid :=
    if snode_winner_info.isEmpty then
      calculate_sum_of_portions null_winner parts0 hard_fork_version
    else calculate_sum_of_portions snode_winner_info parts0 hard_fork_version
  { parts0 with service_node_paid := paid, base_miner := adjusted - total,
                base_miner_fee := fee }

/-- `get_equilibria_block_reward` from `cryptonote_tx_utils.cpp`.  The
underlying `get_block_reward` call and the `allow_governance` /
`allow_dev_fund` schedule lookups live outside the translated fragment of the
computation (the schedules use floating-point terms), so their results enter
as the oracle arguments `base_reward_in` (`none` = failure), `gov_sched` and
`dev_sched`.  Returns `none` exactly when the C++ function returns `false`. -/
def get_equilibria_block_reward (base_reward_in : Option Nat) (gov_sched dev_sched : Nat)
    (hard_fork_version : Nat) (already_generated_coins : Nat) (fee : Nat)
    (snode_winner_info : List (Nat × Nat)) : Option block_reward_parts :=
  match base_reward_in with
  | none => none
  | some br0 =>
    let governance := if 7 ≤ hard_fork_version then gov_sched else 0
    let br1 := u64add br0 governance
    let dev_fund := if 17 ≤ hard_fork_version then dev_sched else 0
    let br2 := u64add br1 dev_fund
    if br2 = 0 then none
    else if already_generated_coins = 0 then
      some ({ original_base_reward := br2, adjusted_base_reward := br2, base_miner := br2,
              governance := governance, dev_fund := dev_fund })
    else
      some (equilibria_success_parts br2 governance dev_fund hard_fork_version fee
        snode_winner_info)

theorem service_node_reward_formula_le (base hf : Nat) :
    service_node_reward_formula base hf ≤ base := by
  unfold service_node_reward_formula
  split
  · calc base / 4 * 3 ≤ base / 4 * 4 := Nat.mul_le_mul_left _ (by omega)
      _ ≤ base := Nat.div_mul_le_self base 4
  · split
    · exact Nat.div_le_self base 2
    · exact Nat.zero_le base

/-- C1 (amended): for every block-reward computation that succeeds with
`already_generated_coins ≠ 0`, the service-node share of the resulting parts
equals `service_node_reward_formula(adjusted_base_reward, hf)`: `0` below the
service-node activation fork, `adjusted_base_reward / 2` for activation ≤ hf
≤ 11, and `adjusted_base_reward / 4 * 3` (integer division by 4 first, then
multiplication by 3) for hf ≥ 12; moreover `operator_reward =
service_node_total / 2`, `staker_reward = service_node_total −
operator_reward` and `base_miner = adjusted_base_reward −
service_node_total`. -/
theorem get_equilibria_block_reward_service_node_split (base_reward_in : Option Nat)
    (gov_sched dev_sched hf agc fee : Nat) (winfo : List (Nat × Nat))
    (parts : block_reward_parts) (hagc : agc ≠ 0)
    (h : get_equilibria_block_reward base_reward_in gov_sched dev_sched hf agc fee winfo
      = some parts) :
    parts.service_node_total =
      (if 12 ≤ hf then parts.adjusted_base_reward / 4 * 3
       else if SERVICE_NODE_VERSION ≤ hf then parts.adjusted_base_reward / 2 else 0) ∧
    parts.operator_reward = parts.service_node_total / 2 ∧
    parts.staker_reward = parts.service_node_total - parts.operator_reward ∧
    parts.base_miner = parts.adjusted_base_reward - parts.service_node_total := by
  match base_reward_in, h with
  | none, h => simp [get_equilibria_block_reward] at h
  | some br0, h =>
    simp only [get_equilibria_block_reward] at h
    generalize hG : (if 7 ≤ hf then gov_sched else 0) = G at h
    generalize hD : (if 17 ≤ hf then dev_sched else 0) = D at h
    by_cases hz : u64add (u64add br0 G) D = 0
    · rw [if_pos hz] at h
      exact absurd h (by simp)
    · rw [if_neg hz, if_neg hagc] at h
      have hp := (Option.some_inj.mp h).symm
      subst hp
      refine ⟨?_, rfl, rfl, rfl⟩
      have htot : (equilibria_success_parts (u64add (u64add br0 G) D) G D hf fee
            winfo).service_node_total
          = service_node_reward_formula (u64sub (u64add (u64add br0 G) D) (u64add G D)) hf := rfl
      have hadj : (equilibria_success_parts (u64add (u64add br0 G) D) G D hf fee
            winfo).adjusted_base_reward
          = u64sub (u64add (u64add br0 G) D) (u64add G D) := rfl
      rw [htot, hadj]
      simp only [service_node_reward_formula]
      rcases Nat.lt_or_ge 11 hf with h11 | h11
      · rw [if_pos h11, if_pos (show 12 ≤ hf by omega)]
      · rw [if_neg (show ¬ 11 < hf by omega), if_neg (show ¬ 12 ≤ hf by omega)]

/-- Concrete output of `get_equilibria_block_reward (some 10) 0 0 9 1 0 []`,
used to instantiate the C1 theorem. -/
def c1_witness_parts : block_reward_parts :=
  { original_base_reward := 10, adjusted_base_reward := 10, service_node_total := 5,
    operator_reward := 2, staker_reward := 3, base_miner := 5, base_miner_fee := 0,
    governance := 0, dev_fund := 0, service_node_paid := 5 }

theorem get_equilibria_block_reward_service_node_split_witness :
    (1 : Nat) ≠ 0 ∧
    get_equilibria_block_reward (some 10) 0 0 9 1 0 [] = some c1_witness_parts ∧
    (c1_witness_parts.service_node_total =
      (if 12 ≤ 9 then c1_witness_parts.adjusted_base_reward / 4 * 3
       else if SERVICE_NODE_VERSION ≤ 9 then c1_witness_parts.adjusted_base_reward / 2 else 0) ∧
     c1_witness_parts.operator_reward = c1_witness_parts.service_node_total / 2 ∧
     c1_witness_parts.staker_reward =
       c1_witness_parts.service_node_total - c1_witness_parts.operator_reward ∧
     c1_witness_parts.base_miner =
       c1_witness_parts.adjusted_base_reward - c1_witness_parts.service_node_total) :=
  ⟨by decide, by decide,
    get_equilibria_block_reward_service_node_split (some 10) 0 0 9 1 0 [] c1_witness_parts
      (by decide) (by decide)⟩

/-- C1 counterexample: at hard fork 12 with adjusted base reward 6 the code
computes a service-node share of `6 / 4 * 3 = 3`, whereas the claimed
`adjusted_base_reward × 3/4` is `6 * 3 / 4 = 4`. -/
theorem get_equilibria_block_reward_three_quarters_counterexample :
    (get_equilibria_block_reward (some 6) 0 0 12 1 0 []).map
        (fun p => (p.service_node_total, p.adjusted_base_reward)) = some (3, 6) ∧
    (3 : Nat) ≠ 6 * 3 / 4 := by decide

/-! ### Service-node registry (`service_node_list.cpp`) -/

/-- `service_node_info::contribution` from `service_node_list.h`.  Addresses
(`cryptonote::account_public_address`) are modelled as `Nat` identifiers. -/
structure contribution where
  amount : Nat := 0
  reserved : Nat := 0
  address : Nat := 0
deriving DecidableEq, Repr

/-- `service_node_info` from `service_node_list.h` (public keys and addresses
as `Nat` identifiers; the `version` tag is irrelevant to the claims and
omitted). -/
structure service_node_info where
  registration_height : Nat := 0
  last_reward_block_height : Nat := 0
  last_reward_transaction_index : Nat := 0
  contributors : List contribution := []
  total_contributed : Nat := 0
  total_reserved : Nat := 0
  staking_requirement : Nat := 0
  portions_for_operator : Nat := 0
  swarm_id : Nat := 0
  operator_address : Nat := 0
deriving DecidableEq, Repr

/-- `service_node_info::is_valid`: `total_contributed >= total_reserved`. -/
def service_node_info.is_valid (i : service_node_info) : Bool :=
  decide (i.total_reserved ≤ i.total_contributed)

/-- `service_node_info::is_fully_funded`: `total_contributed >= staking_requirement`. -/
def service_node_info.is_fully_funded (i : service_node_info) : Bool :=
  decide (i.staking_requirement ≤ i.total_contributed)

/-- `portions_to_amount` from `service_node_rules.cpp` (`mul128` then
`div128_64` by `STAKING_PORTIONS`, low 64 bits kept). -/
def portions_to_amount (portions staking_requirement : Nat) : Nat :=
  staking_requirement * portions / STAKING_PORTIONS % U64

/-- `crypto::null_pkey`: public keys are `Nat` identifiers, `0` is null. -/
def null_pkey : Nat := 0

/-- The `std::pair` lexicographic strict order used on
`(last_reward_block_height, last_reward_transaction_index)` pairs. -/
def pair_lt (a b : Nat × Nat) : Prop := a.1 < b.1 ∨ (a.1 = b.1 ∧ a.2 < b.2)

instance (a b : Nat × Nat) : Decidable (pair_lt a b) := by
  unfold pair_lt
  infer_instance

theorem pair_lt_irrefl (a : Nat × Nat) : ¬ pair_lt a a := by
  unfold pair_lt
  omega

theorem pair_lt_trans {a b c : Nat × Nat} (h1 : pair_lt a b) (h2 : pair_lt b c) :
    pair_lt a c := by
  unfold pair_lt at h1 h2 ⊢
  omega

theorem pair_lt_asymm {a b : Nat × Nat} (h : pair_lt a b) : ¬ pair_lt b a := by
  unfold pair_lt at h ⊢
  omega

/-- The `(last_reward_block_height, last_reward_transaction_index)` pair of a
node, the `waiting_since` value of `select_winner`. -/
def waiting_pair (i : service_node_info) : Nat × Nat :=
  (i.last_reward_block_height, i.last_reward_transaction_index)

/-- The `hard_fork_version == 12` over-portion test of `select_winner`
(`service_node_list.cpp`, lines 965–973): the node sets the loop-wide
`overPortioned` flag when its operator has staked less than
`portions_to_amount(portions_for_operator, staking_requirement)`. -/
def over_portion_trigger (hard_fork_version : Nat) (i : service_node_info) : Prop :=
  hard_fork_version = 12 ∧
    i.total_contributed < portions_to_amount i.portions_for_operator i.staking_requirement

instance (hf : Nat) (i : service_node_info) : Decidable (over_portion_trigger hf i) := by
  unfold over_portion_trigger
  infer_instance

/-- The eligibility test of `select_winner` (`service_node_list.cpp`, line
975), given the current value of the sticky `overPortioned` flag. -/
def winner_eligible (hard_fork_version : Nat) (i : service_node_info) (overPortioned : Bool) :
    Prop :=
  (i.is_valid = true ∧ 9 < hard_fork_version) ∨
    (i.is_fully_funded = true ∧ overPortioned = false)

instance (hf : Nat) (i : service_node_info) (b : Bool) : Decidable (winner_eligible hf i b) := by
  unfold winner_eligible
  infer_instance

/-- The loop of `service_node_list::select_winner` (`service_node_list.cpp`,
lines 960–985), with the registry iterated in list order and the loop state
(`overPortioned`, `oldest_waiting`, `key`) passed explicitly. -/
def select_winner_loop (hard_fork_version : Nat) :
    List (Nat × service_node_info) → Bool → Nat × Nat → Nat → Nat
  | [], _, _, key => key
  | (k, info) :: rest, overPortioned, oldest_waiting, key =>
    let overPortioned2 := if over_portion_trigger hard_fork_version info then true
                          else overPortioned
    if winner_eligible hard_fork_version info overPortioned2 then
      let waiting_since := waiting_pair info
      if pair_lt waiting_since oldest_waiting then
        select_winner_loop hard_fork_version rest overPortioned2 waiting_since k
      else
        select_winner_loop hard_fork_version rest overPortioned2 oldest_waiting key
    else
      select_winner_loop hard_fork_version rest overPortioned2 oldest_waiting key

/-- `service_node_list::select_winner`: `hard_fork_version` is the version at
`m_height`; the initial `oldest_waiting` is `(UINT64_MAX, UINT32_MAX)` and
the initial key is null. -/
def select_winner (hard_fork_version : Nat) (infos : List (Nat × service_node_info)) : Nat :=
  select_winner_loop hard_fork_version infos false (U64MAX, U32MAX) null_pkey

/-- Specification-side view of the loop: the sublist of nodes that pass the
eligibility test, tracking the sticky `overPortioned` flag. -/
def eligible_nodes (hard_fork_version : Nat) :
    List (Nat × service_node_info) → Bool → List (Nat × service_node_info)
  | [], _ => []
  | (k, info) :: rest, overPortioned =>
    let overPortioned2 := if over_portion_trigger hard_fork_version info then true
                          else overPortioned
    if winner_eligible hard_fork_version info overPortioned2 then
      (k, info) :: eligible_nodes hard_fork_version rest overPortioned2
    else
      eligible_nodes hard_fork_version rest overPortioned2

/-- Specification-side view of the loop: running lexicographic minimum of the
waiting pairs. -/
def min_waiting_fold : List (Nat × service_node_info) → Nat × Nat → Nat → Nat
  | [], _, key => key
  | (k, info) :: rest, oldest, key =>
    if pair_lt (waiting_pair info) oldest then min_waiting_fold rest (waiting_pair info) k
    else min_waiting_fold rest oldest key

theorem select_winner_loop_eq_min_fold (hf : Nat) (l : List (Nat × service_node_info))
    (overP : Bool) (oldest : Nat × Nat) (key : Nat) :
    select_winner_loop hf l overP oldest key =
      min_waiting_fold (eligible_nodes hf l overP) oldest key := by
  induction l generalizing overP oldest key with
  | nil => rfl
  | cons p rest ih =>
    obtain ⟨k, info⟩ := p
    simp only [select_winner_loop, eligible_nodes]
    by_cases htrig : over_portion_trigger hf info
    · simp only [if_pos htrig]
      by_cases helig : winner_eligible hf info true
      · simp only [if_pos helig, min_waiting_fold]
        by_cases hlt : pair_lt (waiting_pair info) oldest
        · simp only [if_pos hlt, ih]
        · simp only [if_neg hlt, ih]
      · simp only [if_neg helig, ih]
    · simp only [if_neg htrig]
      by_cases helig : winner_eligible hf info overP
      · simp only [if_pos helig, min_waiting_fold]
        by_cases hlt : pair_lt (waiting_pair info) oldest
        · simp only [if_pos hlt, ih]
        · simp only [if_neg hlt, ih]
      · simp only [if_neg helig, ih]

theorem min_waiting_fold_spec (l : List (Nat × service_node_info)) :
    ∀ (oldest : Nat × Nat) (key : Nat),
      (min_waiting_fold l oldest key = key ∧
        ∀ q ∈ l, ¬ pair_lt (waiting_pair q.2) oldest) ∨
      (∃ p ∈ l, min_waiting_fold l oldest key = p.1 ∧ pair_lt (waiting_pair p.2) oldest ∧
        ∀ q ∈ l, ¬ pair_lt (waiting_pair q.2) (waiting_pair p.2)) := by
  induction l with
  | nil => intro oldest key; exact Or.inl ⟨rfl, by simp⟩
  | cons hd rest ih =>
    intro oldest key
    obtain ⟨k, info⟩ := hd
    by_cases hlt : pair_lt (waiting_pair info) oldest
    · simp only [min_waiting_fold, if_pos hlt]
      rcases ih (waiting_pair info) k with ⟨heq, hall⟩ | ⟨p, hmem, heq, hplt, hall⟩
      · refine Or.inr ⟨(k, info), by simp, heq, hlt, ?_⟩
        intro q hq
        rcases List.mem_cons.mp hq with hq | hq
        · subst hq; exact pair_lt_irrefl _
        · exact hall q hq
      · refine Or.inr ⟨p, List.mem_cons_of_mem _ hmem, heq, pair_lt_trans hplt hlt, ?_⟩
        intro q hq
        rcases List.mem_cons.mp hq with hq | hq
        · subst hq
          exact pair_lt_asymm hplt
        · exact hall q hq
    · simp only [min_waiting_fold, if_neg hlt]
      rcases ih oldest key with ⟨heq, hall⟩ | ⟨p, hmem, heq, hplt, hall⟩
      · refine Or.inl ⟨heq, ?_⟩
        intro q hq
        rcases List.mem_cons.mp hq with hq | hq
        · subst hq; exact hlt
        · exact hall q hq
      · refine Or.inr ⟨p, List.mem_cons_of_mem _ hmem, heq, hplt, ?_⟩
        intro q hq
        rcases List.mem_cons.mp hq with hq | hq
        · subst hq
          intro hcon
          exact hlt (pair_lt_trans hcon hplt)
        · exact hall q hq

/-- C2 (amended): `select_winner` returns null when no node passes the code
eligibility test, and otherwise returns the public key of the node with the
lexicographically minimal `(last_reward_block_height,
last_reward_transaction_index)` pair among the code-eligible nodes, where a
node is code-eligible when `is_valid ∧ hf > 9` holds or `is_fully_funded`
holds and the sticky hf = 12 over-portion flag has not been triggered by it
or by any earlier-iterated node; at hf = 12 eligibility therefore may depend
on other nodes examined before it. -/
theorem select_winner_min_of_eligible (hf : Nat) (infos : List (Nat × service_node_info))
    (hbound : ∀ q ∈ eligible_nodes hf infos false, pair_lt (waiting_pair q.2) (U64MAX, U32MAX)) :
    (eligible_nodes hf infos false = [] → select_winner hf infos = null_pkey) ∧
    (eligible_nodes hf infos false ≠ [] →
      ∃ p ∈ eligible_nodes hf infos false,
        select_winner hf infos = p.1 ∧
        ∀ q ∈ eligible_nodes hf infos false,
          ¬ pair_lt (waiting_pair q.2) (waiting_pair p.2)) := by
  constructor
  · intro hempty
    unfold select_winner
    rw [select_winner_loop_eq_min_fold, hempty]
    rfl
  · intro hne
    unfold select_winner
    rw [select_winner_loop_eq_min_fold]
    rcases min_waiting_fold_spec (eligible_nodes hf infos false) (U64MAX, U32MAX) null_pkey with
      ⟨_, hall⟩ | ⟨p, hmem, heq, _, hall⟩
    · obtain ⟨q, hq⟩ := List.exists_mem_of_ne_nil _ hne
      exact absurd (hbound q hq) (hall q hq)
    · exact ⟨p, hmem, heq, hall⟩

/-- Concrete registry for the C2 witness: two valid nodes, the second one
with the smaller reward pair. -/
def c2_witness_registry : List (Nat × service_node_info) :=
  [(1, { last_reward_block_height := 5, last_reward_transaction_index := 0,
         total_contributed := 10, total_reserved := 10, staking_requirement := 10 }),
   (2, { last_reward_block_height := 3, last_reward_transaction_index := 1,
         total_contributed := 10, total_reserved := 10, staking_requirement := 10 })]

theorem select_winner_min_of_eligible_witness :
    ∃ p ∈ eligible_nodes 10 c2_witness_registry false,
      select_winner 10 c2_witness_registry = p.1 ∧
      ∀ q ∈ eligible_nodes 10 c2_witness_registry false,
        ¬ pair_lt (waiting_pair q.2) (waiting_pair p.2) :=
  (select_winner_min_of_eligible 10 c2_witness_registry (by decide)).2 (by decide)

/-- Registry entry for the C2 counterexample: fully funded (`5 ≥ 5`) but not
`is_valid` (`5 < 10`). -/
def c2_counterexample_node : service_node_info :=
  { total_contributed := 5, total_reserved := 10, staking_requirement := 5 }

/-- C2 counterexample: at hard fork 10 the node `1` fails `is_valid`, yet
`select_winner` returns it (through the `is_fully_funded ∧ ¬overPortioned`
disjunct, which the code also applies when hf ≥ 10), contradicting the claim
that the winner is drawn among exactly the nodes satisfying `is_valid` when
hf ≥ 10. -/
theorem select_winner_is_valid_counterexample :
    select_winner 10 [(1, c2_counterexample_node)] = 1 ∧
    c2_counterexample_node.is_valid = false ∧ (1 : Nat) ≠ null_pkey := by decide

/-- The per-contributor portion computation of
`service_node_list::get_winner_addresses_and_portions`
(`service_node_list.cpp`, lines 918–952).  `max_operator_v12_coin` and
`max_pool_stakers_v12_coin` stand for the configuration products
`MAX_OPERATOR_V12 * COIN` and `MAX_POOL_STAKERS_V12 * COIN`, whose values are
defined outside the sources at hand. -/
def winner_portion_of_contributor (hard_fork_version : Nat)
    (max_operator_v12_coin max_pool_stakers_v12_coin : Nat) (info : service_node_info)
    (c : contribution) : Nat :=
  if hard_fork_version < 12 then
    let remaining_portions := STAKING_PORTIONS - info.portions_for_operator
    let resultlo := c.amount * remaining_portions / info.staking_requirement % U64
    if c.address = info.operator_address then u64add resultlo info.portions_for_operator
    else resultlo
  else if hard_fork_version < 17 then
    if c.address = info.operator_address then
      c.amount * STAKING_PORTIONS / max_operator_v12_coin % U64
    else
      c.amount * STAKING_PORTIONS / max_pool_stakers_v12_coin % U64
  else
    c.amount * STAKING_PORTIONS / info.staking_requirement % U64

/-- `service_node_list::get_winner_addresses_and_portions`
(`service_node_list.cpp`, lines 901–954).  `hf_select` is the hard-fork
version at `m_height` (used by `select_winner`), `hf_current` the current
hard-fork version (used for the portions). -/
def get_winner_addresses_and_portions (hf_select hf_current : Nat)
    (max_operator_v12_coin max_pool_stakers_v12_coin : Nat)
    (infos : List (Nat × service_node_info)) : List (Nat × Nat) :=
  let key := select_winner hf_select infos
  if key = null_pkey then [(null_address, STAKING_PORTIONS)]
  else
    match infos.find? (fun p => p.1 = key) with
    | none => []
    | some (_, info) =>
      info.contributors.map (fun c =>
        (c.address,
         winner_portion_of_contributor hf_current max_operator_v12_coin
           max_pool_stakers_v12_coin info c))

/-- Output destinations of the coinbase transaction built by
`construct_miner_tx`. -/
inductive out_kind where
  | miner : out_kind
  | snode (address : Nat) : out_kind
  | governance : out_kind
  | dev_fund : out_kind
deriving DecidableEq, Repr

/-- The service-node output amount chosen by `construct_miner_tx`
(`cryptonote_tx_utils.cpp`, lines 455–467) for the `i`-th winner-info entry
with portions `p`. -/
def snode_output_amount (hard_fork_version : Nat) (reward_parts : block_reward_parts)
    (i p : Nat) : Nat :=
  if 17 ≤ hard_fork_version then get_portion_of_reward p reward_parts.service_node_total
  else if 12 ≤ hard_fork_version then
    get_portion_of_reward p
      (if i = 0 then reward_parts.operator_reward else reward_parts.staker_reward)
  else get_portion_of_reward p reward_parts.service_node_total

/-- The service-node outputs of `construct_miner_tx`, one per winner-info
entry, tracking the running index `i`. -/
def snode_outputs_from (hard_fork_version : Nat) (reward_parts : block_reward_parts) :
    List (Nat × Nat) → Nat → List (out_kind × Nat)
  | [], _ => []
  | (addr, p) :: rest, i =>
    (out_kind.snode addr, snode_output_amount hard_fork_version reward_parts i p) ::
      snode_outputs_from hard_fork_version reward_parts rest (i + 1)

/-- Modelled from the spec: `block_reward_parts::miner_reward()` is defined in
`cryptonote_tx_utils.h`, which is not among the sources at hand; §4.F gives
the miner output as the miner part of the reward plus `base_miner_fee`. -/
def miner_reward (p : block_reward_parts) : Nat := u64add p.base_miner p.base_miner_fee

/-- The output list (destination kind and amount) of the coinbase built by
`construct_miner_tx` (`cryptonote_tx_utils.cpp`, lines 359–538): the miner
output, then one output per winner-info entry when `hf ≥
SERVICE_NODE_VERSION` (an empty winner info is replaced by `null_winner`),
then the governance output when `hf ≥ 7` and scheduled, then the dev-fund
output when `hf ≥ 17` and scheduled. -/
def construct_miner_tx_outputs (hard_fork_version : Nat) (reward_parts : block_reward_parts)
    (snode_winner_info : List (Nat × Nat)) : List (out_kind × Nat) :=
  let service_node_info := if snode_winner_info.isEmpty then null_winner else snode_winner_info
  let sn_outs :=
    if SERVICE_NODE_VERSION ≤ hard_fork_version then
      snode_outputs_from hard_fork_version reward_parts service_node_info 0
    else []
  let gov_outs :=
    if 7 ≤ hard_fork_version ∧ 0 < reward_parts.governance then
      [(out_kind.governance, reward_parts.governance)]
    else []
  let dev_outs :=
    if 17 ≤ hard_fork_version ∧ 0 < reward_parts.dev_fund then
      [(out_kind.dev_fund, reward_parts.dev_fund)]
    else []
  (out_kind.miner, miner_reward reward_parts) :: (sn_outs ++ gov_outs ++ dev_outs)

/-- The service-node outputs among a coinbase output list. -/
def snode_outputs_of (outs : List (out_kind × Nat)) : List (out_kind × Nat) :=
  outs.filter (fun o => match o.1 with
    | out_kind.snode _ => true
    | _ => false)

theorem get_portion_of_reward_full (t : Nat) (ht : t < U64) :
    get_portion_of_reward STAKING_PORTIONS t = t := by
  unfold get_portion_of_reward
  rw [Nat.mul_div_cancel t STAKING_PORTIONS_pos]
  exact Nat.mod_eq_of_lt ht

/-- C3 (amended): whenever no service node is code-eligible, `select_winner`
returns the null key, `get_winner_addresses_and_portions` returns the
null-winner list `[(null_address, STAKING_PORTIONS)]`, and the constructed
coinbase still contains exactly one service-node output, paying the full
`service_node_total` (for activation ≤ hf < 12 or hf ≥ 17) or the
`operator_reward` (for 12 ≤ hf < 17) to the null address, in addition to the
miner, governance and dev-fund outputs. -/
theorem construct_miner_tx_null_winner_payout (hf_select hf_current hf_construct : Nat)
    (max_op max_pool : Nat) (infos : List (Nat × service_node_info))
    (reward_parts : block_reward_parts)
    (helig : eligible_nodes hf_select infos false = [])
    (hsnv : SERVICE_NODE_VERSION ≤ hf_construct)
    (htot : reward_parts.service_node_total < U64)
    (hop : reward_parts.operator_reward < U64) :
    select_winner hf_select infos = null_pkey ∧
    get_winner_addresses_and_portions hf_select hf_current max_op max_pool infos =
      [(null_address, STAKING_PORTIONS)] ∧
    snode_outputs_of
        (construct_miner_tx_outputs hf_construct reward_parts
          (get_winner_addresses_and_portions hf_select hf_current max_op max_pool infos)) =
      [(out_kind.snode null_address,
        if 12 ≤ hf_construct ∧ hf_construct < 17 then reward_parts.operator_reward
        else reward_parts.service_node_total)] := by
  have hsel : select_winner hf_select infos = null_pkey := by
    unfold select_winner
    rw [select_winner_loop_eq_min_fold, helig]
    rfl
  have hwin : get_winner_addresses_and_portions hf_select hf_current max_op max_pool infos =
      [(null_address, STAKING_PORTIONS)] := by
    unfold get_winner_addresses_and_portions
    rw [hsel]
    rfl
  refine ⟨hsel, hwin, ?_⟩
  rw [hwin]
  unfold construct_miner_tx_outputs
  simp only [List.isEmpty_cons, Bool.false_eq_true, if_false, if_pos hsnv]
  unfold snode_outputs_of
  simp only [List.filter_cons, List.filter_append]
  have hsn : snode_outputs_from hf_construct reward_parts [(null_address, STAKING_PORTIONS)] 0 =
      [(out_kind.snode null_address,
        snode_output_amount hf_construct reward_parts 0 STAKING_PORTIONS)] := rfl
  rw [hsn]
  have hgov : List.filter (fun o => match o.1 with
      | out_kind.snode _ => true
      | _ => false)
      (if 7 ≤ hf_construct ∧ 0 < reward_parts.governance then
        [(out_kind.governance, reward_parts.governance)] else []) = [] := by
    split <;> rfl
  have hdev : List.filter (fun o => match o.1 with
      | out_kind.snode _ => true
      | _ => false)
      (if 17 ≤ hf_construct ∧ 0 < reward_parts.dev_fund then
        [(out_kind.dev_fund, reward_parts.dev_fund)] else []) = [] := by
    split <;> rfl
  rw [hgov, hdev]
  simp only [List.filter_cons, List.append_nil]
  have hamount : snode_output_amount hf_construct reward_parts 0 STAKING_PORTIONS =
      (if 12 ≤ hf_construct ∧ hf_construct < 17 then reward_parts.operator_reward
       else reward_parts.service_node_total) := by
    unfold snode_output_amount
    rcases Nat.lt_or_ge hf_construct 12 with h12 | h12
    · rw [if_neg (by omega), if_neg (by omega), if_neg (by omega)]
      exact get_portion_of_reward_full _ htot
    · rcases Nat.lt_or_ge hf_construct 17 with h17 | h17
      · rw [if_neg (show ¬ 17 ≤ hf_construct by omega), if_pos h12, if_pos rfl,
          if_pos (show 12 ≤ hf_construct ∧ hf_construct < 17 from ⟨h12, h17⟩)]
        exact get_portion_of_reward_full _ hop
      · rw [if_pos h17, if_neg (by omega)]
        exact get_portion_of_reward_full _ htot
  rw [hamount]
  rfl

/-- Concrete reward parts used to instantiate the C3 theorem. -/
def c3_witness_parts : block_reward_parts :=
  { original_base_reward := 10, adjusted_base_reward := 10, service_node_total := 5,
    operator_reward := 2, staker_reward := 3, base_miner := 5 }

theorem construct_miner_tx_null_winner_payout_witness :
    select_winner 9 [] = null_pkey ∧
    get_winner_addresses_and_portions 9 9 0 0 [] = [(null_address, STAKING_PORTIONS)] ∧
    snode_outputs_of
        (construct_miner_tx_outputs 9 c3_witness_parts
          (get_winner_addresses_and_portions 9 9 0 0 [])) =
      [(out_kind.snode null_address,
        if 12 ≤ 9 ∧ 9 < 17 then c3_witness_parts.operator_reward
        else c3_witness_parts.service_node_total)] :=
  construct_miner_tx_null_winner_payout 9 9 9 0 0 [] c3_witness_parts (by decide) (by decide)
    (by decide) (by decide)

/-- C3 counterexample: with an empty registry (so no node is eligible and the
winner is null), at hard fork 17 with base reward 8 the constructed coinbase
contains a service-node output of amount 6 (the whole service-node total) to
the null address, so the coinbase does not pay only the miner, governance and
dev-fund outputs. -/
theorem construct_miner_tx_null_winner_counterexample :
    select_winner 17 [] = null_pkey ∧
    (get_equilibria_block_reward (some 8) 0 0 17 1 0
        (get_winner_addresses_and_portions 17 17 0 0 [])).map
        (fun parts => construct_miner_tx_outputs 17 parts
          (get_winner_addresses_and_portions 17 17 0 0 [])) =
      some [(out_kind.miner, 2), (out_kind.snode null_address, 6)] ∧
    (6 : Nat) ≠ 0 := by decide

/-- `service_node_list::get_expired_nodes` for hard fork ≥ 5
(`service_node_list.cpp`, lines 837–862): `lock_blocks` is
`get_staking_requirement_lock_blocks(nettype)` and `excess` is
`STAKING_REQUIREMENT_LOCK_BLOCKS_EXCESS`, taken as parameters because those
configuration constants are defined outside the sources at hand.  A node is
expired when `registration_height + lock_blocks + excess < block_height`; no
node expires while `block_height < lock_blocks + excess`.  (The hard fork <
5 branch re-reads historical blocks and is outside the claims.) -/
def get_expired_nodes (lock_blocks excess : Nat) (infos : List (Nat × service_node_info))
    (block_height : Nat) : List Nat :=
  if block_height < lock_blocks + excess then []
  else
    (infos.filter
      (fun p => decide (p.2.registration_height + (lock_blocks + excess) < block_height))).map
      (fun p => p.1)

/-- `m_service_nodes_infos.erase` on the association-list registry. -/
def erase_key (key : Nat) (infos : List (Nat × service_node_info)) :
    List (Nat × service_node_info) :=
  infos.filter (fun p => decide (p.1 ≠ key))

/-- The expiry section of `service_node_list::process_block`
(`service_node_list.cpp`, lines 740–763): each pubkey returned by
`get_expired_nodes` is erased from the registry (the paired rollback-journal
push does not affect the registry contents). -/
def expire_nodes_step (lock_blocks excess block_height : Nat)
    (infos : List (Nat × service_node_info)) : List (Nat × service_node_info) :=
  (get_expired_nodes lock_blocks excess infos block_height).foldl
    (fun acc k => erase_key k acc) infos

theorem erase_fold_subset (ks : List Nat) :
    ∀ (acc : List (Nat × service_node_info)) (q : Nat × service_node_info),
      q ∈ ks.foldl (fun acc k => erase_key k acc) acc → q ∈ acc := by
  induction ks with
  | nil => intro acc q h; exact h
  | cons k rest ih =>
    intro acc q h
    have h2 := ih (erase_key k acc) q h
    exact List.mem_of_mem_filter h2

theorem erase_fold_keeps (ks : List Nat) :
    ∀ (acc : List (Nat × service_node_info)) (q : Nat × service_node_info),
      q ∈ acc → q.1 ∉ ks → q ∈ ks.foldl (fun acc k => erase_key k acc) acc := by
  induction ks with
  | nil => intro acc q h _; exact h
  | cons k rest ih =>
    intro acc q h hnot
    have hk : q.1 ≠ k := fun he => hnot (by rw [he]; exact List.mem_cons_self _ _)
    have hmem : q ∈ erase_key k acc := List.mem_filter.mpr ⟨h, by simpa using hk⟩
    exact ih _ q hmem (fun hin => hnot (List.mem_cons_of_mem _ hin))

theorem erase_fold_removes (ks : List Nat) :
    ∀ (acc : List (Nat × service_node_info)) (k : Nat), k ∈ ks →
      ∀ q ∈ ks.foldl (fun acc k => erase_key k acc) acc, q.1 ≠ k := by
  induction ks with
  | nil => intro acc k h; cases h
  | cons k0 rest ih =>
    intro acc k hk q hq
    rcases List.mem_cons.mp hk with hk | hk
    · subst hk
      by_cases hr : k ∈ rest
      · exact ih _ k hr q hq
      · have hmem : q ∈ erase_key k acc := erase_fold_subset rest _ q hq
        have := (List.mem_filter.mp hmem).2
        simpa using this
    · exact ih _ k hk q hq

/-- C4 (amended): a node registered at height `R` that never re-registers
(hard fork ≥ 5) is removed from the registry by the expiry step exactly at
block `R + lock_blocks + excess + 1`: the entry is still present after the
expiry step of every block of height at most `R + lock_blocks + excess`, and
the expiry step of the block at height `R + lock_blocks + excess + 1`
removes it. -/
theorem expire_nodes_step_exact (lock_blocks excess R key : Nat)
    (info : service_node_info) (infos : List (Nat × service_node_info))
    (hreg : info.registration_height = R)
    (hmem : (key, info) ∈ infos)
    (hsame : ∀ p ∈ infos, p.1 = key → p.2.registration_height = R) :
    (∀ H, H ≤ R + lock_blocks + excess →
      (key, info) ∈ expire_nodes_step lock_blocks excess H infos) ∧
    (∀ q ∈ expire_nodes_step lock_blocks excess (R + lock_blocks + excess + 1) infos,
      q.1 ≠ key) := by
  constructor
  · intro H hH
    unfold expire_nodes_step
    refine erase_fold_keeps _ infos (key, info) hmem ?_
    intro hin
    unfold get_expired_nodes at hin
    split at hin
    · cases hin
    · obtain ⟨p, hp, hpk⟩ := List.mem_map.mp hin
      have hcond := (List.mem_filter.mp hp).2
      have hpin := (List.mem_filter.mp hp).1
      have hpr : p.2.registration_height = R := hsame p hpin hpk
      rw [hpr] at hcond
      simp only [decide_eq_true_eq] at hcond
      omega
  · intro q hq
    unfold expire_nodes_step at hq
    refine erase_fold_removes _ infos key ?_ q hq
    unfold get_expired_nodes
    rw [if_neg (by omega)]
    refine List.mem_map.mpr ⟨(key, info), List.mem_filter.mpr ⟨hmem, ?_⟩, rfl⟩
    simp only [decide_eq_true_eq]
    omega

/-- Registry entry for the C4 witness and counterexample: registered at
height 0. -/
def c4_node : service_node_info := { registration_height := 0 }

theorem expire_nodes_step_exact_witness :
    ((0 : Nat) + 0 = 0 ∧ (1, c4_node) ∈ [(1, c4_node)]) ∧
    (3 ≤ 0 + 2 + 1 → (1, c4_node) ∈ expire_nodes_step 2 1 3 [(1, c4_node)]) ∧
    (∀ q ∈ expire_nodes_step 2 1 (0 + 2 + 1 + 1) [(1, c4_node)], q.1 ≠ 1) := by
  have h := expire_nodes_step_exact 2 1 0 1 c4_node [(1, c4_node)] (by decide) (by decide)
    (by intro p hp _; simp at hp; rw [hp]; rfl)
  exact ⟨⟨rfl, by decide⟩, fun _ => h.1 3 (by decide), h.2⟩

/-- C4 counterexample: with `lock_blocks = 2`, `excess = 1` and a node
registered at height 0, processing the expiry step of the block at height
`R + lock_blocks + excess = 3` leaves the entry in the registry (the code
removes it only at height 4), contradicting the claimed removal exactly at
`R + lock_blocks + excess`. -/
theorem expire_nodes_step_at_expiry_height_counterexample :
    expire_nodes_step 2 1 3 [(1, c4_node)] = [(1, c4_node)] ∧ 0 + 2 + 1 = 3 := by decide

/-- The output-count guard of `service_node_list::validate_miner_tx`
(`service_node_list.cpp`, lines 1013–1017): rejection fires when
`miner_tx.vout.size() - 1 < addresses_and_portions.size()`, with the
subtraction evaluated in `size_t` (unsigned 64-bit) arithmetic. -/
def validate_miner_tx_output_count_guard (vout_size addresses_and_portions_size : Nat) : Bool :=
  decide (u64sub vout_size 1 < addresses_and_portions_size)

theorem u64sub_zero_one : u64sub 0 1 = U64 - 1 := by decide

/-- C10: in `validate_miner_tx`, the output-count guard evaluates
`miner_tx.vout.size() - 1` in unsigned 64-bit arithmetic, so for a coinbase
with zero outputs the subtraction wraps to `2^64 - 1` and the guard cannot
fire for any expected payout list (whose size, being a vector size, is below
`2^64`). -/
theorem validate_miner_tx_output_count_guard_empty_vout (n : Nat) (h : n < U64) :
    u64sub 0 1 = U64 - 1 ∧ validate_miner_tx_output_count_guard 0 n = false := by
  refine ⟨u64sub_zero_one, ?_⟩
  unfold validate_miner_tx_output_count_guard
  simp only [decide_eq_false_iff_not]
  rw [u64sub_zero_one]
  unfold U64 at h ⊢
  omega

theorem validate_miner_tx_output_count_guard_empty_vout_witness :
    u64sub 0 1 = U64 - 1 ∧ validate_miner_tx_output_count_guard 0 5 = false :=
  validate_miner_tx_output_count_guard_empty_vout 5 (by decide)

/-! ### Quorum selector (`service_node_list.cpp`) -/

/-- `quorum_state` from `service_node_list.h` (public keys as `Nat`). -/
structure quorum_state where
  quorum_nodes : List Nat := []
  nodes_to_test : List Nat := []
deriving DecidableEq, Repr

/-- `service_node_list::store_quorum_state_from_rewards_list`
(`service_node_list.cpp`, lines 1067–1122).  `QUORUM_SIZE`,
`MIN_NODES_TO_TEST` and `NTH_OF_THE_NETWORK_TO_TEST` are configuration
constants defined outside the sources at hand and enter as parameters; the
seeded Mersenne-Twister shuffle of the index vector enters as the `shuffle`
parameter.  Returns `none` when the block hash of the height is null (the
code stores nothing in that case). -/
def store_quorum_state_from_rewards_list (QUORUM_SIZE MIN_NODES_TO_TEST NTH : Nat)
    (shuffle : List Nat → List Nat) (block_hash_is_null : Bool)
    (full_node_list : List Nat) : Option quorum_state :=
  if block_hash_is_null then none
  else
    let pub_keys_indexes := shuffle (List.range full_node_list.length)
    let quorum := (List.range (min full_node_list.length QUORUM_SIZE)).map
      (fun i => full_node_list.getD (pub_keys_indexes.getD i 0) 0)
    let num_remaining_nodes := pub_keys_indexes.length - quorum.length
    let num_nodes_to_test := max (num_remaining_nodes / NTH)
      (min MIN_NODES_TO_TEST num_remaining_nodes)
    let nodes_to_test := (List.range num_nodes_to_test).map
      (fun i => full_node_list.getD (pub_keys_indexes.getD (quorum.length + i) 0) 0)
    some { quorum_nodes := quorum, nodes_to_test := nodes_to_test }

/-- C9: for every height with a non-null block hash and every eligible pubkey
list, the stored quorum state has a quorum of size `min(|pubkeys|,
QUORUM_SIZE)` and a nodes_to_test vector of size `max(min(MIN_NODES_TO_TEST,
remaining), remaining / NTH_OF_THE_NETWORK_TO_TEST)`, where `remaining` is
the number of eligible pubkeys not placed in the quorum. -/
theorem store_quorum_state_from_rewards_list_sizes (QUORUM_SIZE MIN_NODES_TO_TEST NTH : Nat)
    (shuffle : List Nat → List Nat) (full_node_list : List Nat)
    (hlen : (shuffle (List.range full_node_list.length)).length = full_node_list.length)
    (hNTH : 0 < NTH) :
    ∃ qs, store_quorum_state_from_rewards_list QUORUM_SIZE MIN_NODES_TO_TEST NTH shuffle
        false full_node_list = some qs ∧
      qs.quorum_nodes.length = min full_node_list.length QUORUM_SIZE ∧
      qs.nodes_to_test.length =
        max (min MIN_NODES_TO_TEST
              (full_node_list.length - min full_node_list.length QUORUM_SIZE))
            ((full_node_list.length - min full_node_list.length QUORUM_SIZE) / NTH) := by
  refine ⟨_, rfl, ?_, ?_⟩
  · simp [List.length_map, List.length_range]
  · simp only [List.length_map, List.length_range, hlen]
    exact Nat.max_comm _ _

theorem store_quorum_state_from_rewards_list_sizes_witness :
    ∃ qs, store_quorum_state_from_rewards_list 10 50 100 (fun l => l) false [5, 6, 7] =
        some qs ∧
      qs.quorum_nodes.length = min 3 10 ∧
      qs.nodes_to_test.length = max (min 50 (3 - min 3 10)) ((3 - min 3 10) / 100) := by
  have h := store_quorum_state_from_rewards_list_sizes 10 50 100 (fun l => l) [5, 6, 7]
    rfl (by decide)
  simpa using h

/-! ### Transaction pool admission (`tx_pool.cpp`) -/

/-- `tx_verification_context`: the flags set by `tx_memory_pool::add_tx`. -/
structure tx_verification_context where
  m_verification_failed : Bool := false
  m_fee_too_low : Bool := false
  m_too_big : Bool := false
  m_double_spend : Bool := false
  m_invalid_input : Bool := false
  m_invalid_output : Bool := false
  m_verification_impossible : Bool := false
  m_added_to_pool : Bool := false
deriving DecidableEq, Repr

/-- The inputs of `tx_memory_pool::add_tx` (`tx_pool.cpp`, lines 163–381),
with the externally computed predicates entering as oracle fields:
`miner_fee` is the result of `get_tx_miner_fee` (`none` = failure),
`fee_uninit` the indeterminate value the uninitialized local `fee` holds in
that case, `check_fee_ok` the result of `Blockchain::check_fee(tx_weight, ·)`
as a function of the fee value actually passed, and the remaining booleans
the results of the corresponding checks. -/
structure add_tx_inputs where
  version_is_v0 : Bool
  timed_out_before : Bool
  kept_by_block : Bool
  input_types_supported : Bool
  miner_fee : Option Nat
  fee_uninit : Nat
  is_transfer : Bool
  check_fee_ok : Nat → Bool
  tx_weight : Nat
  tx_weight_limit : Nat
  version_ge_per_byte_fee : Bool
  have_key_images_spent : Bool
  have_deregister_already : Bool
  outputs_ok : Bool
  inputs_ok : Bool

/-- The outcome of `add_tx`: return value, verification context, and whether
the transaction was inserted into the pool. -/
structure add_tx_result where
  accepted : Bool
  tvc : tx_verification_context
  inserted : Bool
deriving DecidableEq, Repr

/-- `tx_memory_pool::add_tx` (`tx_pool.cpp`, lines 163–381).  Note that when
`get_tx_miner_fee` fails the code sets `m_verification_failed` and
`m_fee_too_low` but does not return; `m_verification_failed` is reset to
`false` on the success paths (line 371), while `m_fee_too_low` keeps the
value it was given. -/
def tx_memory_pool_add_tx (i : add_tx_inputs) : add_tx_result :=
  if i.version_is_v0 then
    { accepted := false, tvc := { m_verification_failed := true }, inserted := false }
  else if !i.kept_by_block && i.timed_out_before then
    { accepted := false, tvc := { m_verification_failed := true }, inserted := false }
  else if !i.input_types_supported then
    { accepted := false,
      tvc := { m_verification_failed := true, m_invalid_input := true }, inserted := false }
  else
    let fee_flagged := i.miner_fee.isNone
    let fee := i.miner_fee.getD i.fee_uninit
    if !i.kept_by_block && i.is_transfer && !(i.check_fee_ok fee) then
      { accepted := false,
        tvc := { m_verification_failed := true, m_fee_too_low := true }, inserted := false }
    else if (!i.kept_by_block || i.version_ge_per_byte_fee) &&
        decide (i.tx_weight_limit < i.tx_weight) then
      { accepted := false,
        tvc := { m_verification_failed := true, m_fee_too_low := fee_flagged,
                 m_too_big := true },
        inserted := false }
    else if !i.kept_by_block && i.have_key_images_spent then
      { accepted := false,
        tvc := { m_verification_failed := true, m_fee_too_low := fee_flagged,
                 m_double_spend := true },
        inserted := false }
    else if !i.kept_by_block && i.have_deregister_already then
      { accepted := false,
        tvc := { m_verification_failed := true, m_fee_too_low := fee_flagged,
                 m_double_spend := true },
        inserted := false }
    else if !i.outputs_ok then
      { accepted := false,
        tvc := { m_verification_failed := true, m_fee_too_low := fee_flagged,
                 m_invalid_output := true },
        inserted := false }
    else if !i.inputs_ok then
      if i.kept_by_block then
        { accepted := true,
          tvc := { m_verification_failed := false, m_fee_too_low := fee_flagged,
                   m_verification_impossible := true, m_added_to_pool := true },
          inserted := true }
      else
        { accepted := false,
          tvc := { m_verification_failed := true, m_fee_too_low := fee_flagged,
                   m_invalid_input := true },
          inserted := false }
    else
      { accepted := true,
        tvc := { m_verification_failed := false, m_fee_too_low := fee_flagged,
                 m_added_to_pool := true },
        inserted := true }

/-- C8 (amended): `add_tx` returns false with the `fee_too_low` flag set and
without inserting the transaction whenever the transaction is a transfer, is
not kept-by-block, and the `(weight, fee)` pair fails `check_fee`; when
`get_tx_miner_fee` fails, `add_tx` merely sets `verification_failed` and
`fee_too_low` and continues, and if every later check passes the transaction
is inserted and `add_tx` returns true (with `fee_too_low` still set and
`verification_failed` reset to false). -/
theorem tx_memory_pool_add_tx_fee_too_low (i : add_tx_inputs)
    (hv : i.version_is_v0 = false) (ht : i.timed_out_before = false)
    (hity : i.input_types_supported = true) :
    (i.kept_by_block = false → i.is_transfer = true →
      i.check_fee_ok (i.miner_fee.getD i.fee_uninit) = false →
      tx_memory_pool_add_tx i =
        { accepted := false,
          tvc := { m_verification_failed := true, m_fee_too_low := true },
          inserted := false }) ∧
    (i.miner_fee = none →
      (i.is_transfer = false ∨ i.kept_by_block = true ∨ i.check_fee_ok i.fee_uninit = true) →
      i.tx_weight ≤ i.tx_weight_limit →
      (i.kept_by_block = true ∨
        (i.have_key_images_spent = false ∧ i.have_deregister_already = false)) →
      i.outputs_ok = true → i.inputs_ok = true →
      tx_memory_pool_add_tx i =
        { accepted := true,
          tvc := { m_verification_failed := false, m_fee_too_low := true,
                   m_added_to_pool := true },
          inserted := true }) := by
  constructor
  · intro hk htr hcf
    unfold tx_memory_pool_add_tx
    rw [if_neg (by simp [hv]), if_neg (by simp [hk, ht]), if_neg (by simp [hity])]
    rw [if_pos (by simp [hk, htr, hcf])]
  · intro hfee hpass hw hds hout hin
    unfold tx_memory_pool_add_tx
    rw [if_neg (by simp [hv]), if_neg (by simp [ht]), if_neg (by simp [hity])]
    have hnf : (!i.kept_by_block && i.is_transfer &&
        !(i.check_fee_ok (i.miner_fee.getD i.fee_uninit))) = false := by
      rcases hpass with h | h | h
      · simp [h]
      · simp [h]
      · simp [hfee, h]
    rw [if_neg (by simp [hnf])]
    rw [if_neg (by simp; omega)]
    have hki : (!i.kept_by_block && i.have_key_images_spent) = false := by
      rcases hds with h | ⟨h1, _⟩
      · simp [h]
      · simp [h1]
    have hdr : (!i.kept_by_block && i.have_deregister_already) = false := by
      rcases hds with h | ⟨_, h2⟩
      · simp [h]
      · simp [h2]
    rw [if_neg (by simp [hki]), if_neg (by simp [hdr]), if_neg (by simp [hout]),
      if_neg (by simp [hin])]
    simp [hfee]

/-- Concrete inputs for the C8 witness: a non-kept transfer failing
`check_fee`. -/
def c8_witness_input : add_tx_inputs :=
  { version_is_v0 := false, timed_out_before := false, kept_by_block := false,
    input_types_supported := true, miner_fee := some 1, fee_uninit := 0,
    is_transfer := true, check_fee_ok := fun _ => false, tx_weight := 1,
    tx_weight_limit := 10, version_ge_per_byte_fee := false,
    have_key_images_spent := false, have_deregister_already := false,
    outputs_ok := true, inputs_ok := true }

theorem tx_memory_pool_add_tx_fee_too_low_witness :
    tx_memory_pool_add_tx c8_witness_input =
      { accepted := false,
        tvc := { m_verification_failed := true, m_fee_too_low := true },
        inserted := false } :=
  (tx_memory_pool_add_tx_fee_too_low c8_witness_input rfl rfl rfl).1 rfl rfl rfl

/-- Concrete inputs for the C8 counterexample: `get_tx_miner_fee` fails
(`miner_fee = none`) for a non-transfer (deregister) transaction and all
later checks pass. -/
def c8_counterexample_input : add_tx_inputs :=
  { version_is_v0 := false, timed_out_before := false, kept_by_block := false,
    input_types_supported := true, miner_fee := none, fee_uninit := 0,
    is_transfer := false, check_fee_ok := fun _ => false, tx_weight := 1,
    tx_weight_limit := 10, version_ge_per_byte_fee := false,
    have_key_images_spent := false, have_deregister_already := false,
    outputs_ok := true, inputs_ok := true }

/-- C8 counterexample: for this transaction `get_tx_miner_fee` fails, yet
`add_tx` returns true and inserts the transaction, because the code sets the
`fee_too_low` flag without returning; the claimed unconditional rejection
does not hold. -/
theorem tx_memory_pool_add_tx_miner_fee_failure_counterexample :
    c8_counterexample_input.miner_fee = none ∧
    (tx_memory_pool_add_tx c8_counterexample_input).accepted = true ∧
    (tx_memory_pool_add_tx c8_counterexample_input).inserted = true ∧
    (tx_memory_pool_add_tx c8_counterexample_input).tvc.m_fee_too_low = true := by
  refine ⟨rfl, ?_, ?_, ?_⟩ <;> rfl

/-! ### Transaction pool pruning (`tx_pool.cpp`) -/

/-- A pool entry as seen by `tx_memory_pool::prune`: the `is_deregister` and
`receive_time` components of its ordering-multiset key, and the
`kept_by_block` flag and `weight` of its metadata. -/
structure pool_entry where
  is_deregister : Bool := false
  receive_time : Nat := 0
  kept_by_block : Bool := false
  weight : Nat := 0
deriving DecidableEq, Repr

/-- Total weight of a list of pool entries. -/
def sum_weights (l : List pool_entry) : Nat := (l.map (fun e => e.weight)).sum

/-- The loop of `tx_memory_pool::prune` (`tx_pool.cpp`, lines 415–462),
walking the ordering multiset backwards from `--end()`.  The input list holds
the entries still to visit in visiting order (reverse multiset order); `w` is
`m_txpool_weight`.  The loop breaks at the first standard (non-deregister)
entry or at a deregister whose `receive_time ≥ now −
MEMPOOL_PRUNE_DEREGISTER_LIFETIME`, breaks when the weight has reached the
target, skips `kept_by_block` entries, and otherwise removes the entry and
subtracts its weight. -/
def prune_visit (now lifetime target : Nat) : List pool_entry → Nat → List pool_entry × Nat
  | [], w => ([], w)
  | e :: rest, w =>
    if !e.is_deregister || decide (now - lifetime ≤ e.receive_time) then (e :: rest, w)
    else if w ≤ target then (e :: rest, w)
    else if e.kept_by_block then
      let r := prune_visit now lifetime target rest w
      (e :: r.1, r.2)
    else
      prune_visit now lifetime target rest (u64sub w e.weight)

/-- `tx_memory_pool::prune` (`tx_pool.cpp`, lines 405–468) on the pool
contents.  Modelled from the spec where the multiset comparator (defined in
`tx_pool.h`, not among the sources at hand) is concerned: the ordering
multiset is keyed `(is_deregister, fee_per_byte, receive_time)` with
deregisters as a separate class at the front, and `pool` lists the entries in
that (priority) order; the iterator starts at `--end()` — the last,
lowest-priority element — and never visits the first element.  Returns the
remaining pool (in order) and the remaining weight. -/
def tx_memory_pool_prune (now lifetime target : Nat) (pool : List pool_entry) (w : Nat) :
    List pool_entry × Nat :=
  match pool with
  | [] => ([], w)
  | first :: tail =>
    let r := prune_visit now lifetime target tail.reverse w
    (first :: r.1.reverse, r.2)

/-- An entry `prune` may remove: a deregister, not kept-by-block, whose
receive time lies before `now − lifetime`. -/
def prune_removable (now lifetime : Nat) (e : pool_entry) : Bool :=
  e.is_deregister && !e.kept_by_block && decide (e.receive_time < now - lifetime)

theorem prune_visit_spec (now lifetime target : Nat) (l : List pool_entry) :
    ∀ w, sum_weights l ≤ w → w < U64 →
      (prune_visit now lifetime target l w).1.Sublist l ∧
      (prune_visit now lifetime target l w).1.filter
          (fun e => !prune_removable now lifetime e) =
        l.filter (fun e => !prune_removable now lifetime e) ∧
      (prune_visit now lifetime target l w).2 + sum_weights l =
        w + sum_weights (prune_visit now lifetime target l w).1 := by
  induction l with
  | nil => intro w _ _; exact ⟨List.Sublist.refl _, rfl, rfl⟩
  | cons e rest ih =>
    intro w hsum hU
    have hsum_cons : sum_weights (e :: rest) = e.weight + sum_weights rest := by
      simp [sum_weights]
    by_cases hbreak : (!e.is_deregister || decide (now - lifetime ≤ e.receive_time)) = true
    · have hstep : prune_visit now lifetime target (e :: rest) w = (e :: rest, w) := by
        simp only [prune_visit, if_pos hbreak]
      rw [hstep]
      exact ⟨List.Sublist.refl _, rfl, rfl⟩
    · have hcond : e.is_deregister = true ∧ e.receive_time < now - lifetime := by
        rcases Bool.eq_false_or_eq_true e.is_deregister with h | h
        · refine ⟨h, ?_⟩
          rcases Nat.lt_or_ge e.receive_time (now - lifetime) with h2 | h2
          · exact h2
          · exact absurd (by simp [h, h2]) hbreak
        · exact absurd (by simp [h]) hbreak
      by_cases hwt : w ≤ target
      · have hstep : prune_visit now lifetime target (e :: rest) w = (e :: rest, w) := by
          simp only [prune_visit, if_neg hbreak, if_pos hwt]
        rw [hstep]
        exact ⟨List.Sublist.refl _, rfl, rfl⟩
      · by_cases hkept : e.kept_by_block = true
        · have hstep : prune_visit now lifetime target (e :: rest) w =
              (e :: (prune_visit now lifetime target rest w).1,
               (prune_visit now lifetime target rest w).2) := by
            simp only [prune_visit, if_neg hbreak, if_neg hwt, if_pos hkept]
          rw [hstep]
          obtain ⟨ha, hb, hc⟩ := ih w (by omega) hU
          refine ⟨List.Sublist.cons₂ _ ha, ?_, ?_⟩
          · have hkeep : prune_removable now lifetime e = false := by
              simp [prune_removable, hkept]
            simp only [List.filter_cons, hkeep]
            simp only [Bool.not_false, if_pos]
            rw [hb]
          · simp only [hsum_cons, sum_weights, List.map_cons, List.sum_cons]
            have := hc
            simp only [sum_weights] at this
            omega
        · have hew : e.weight ≤ w := by omega
          have hsub : u64sub w e.weight = w - e.weight := u64sub_eq_of_le hew hU
          have hstep : prune_visit now lifetime target (e :: rest) w =
              prune_visit now lifetime target rest (w - e.weight) := by
            simp only [prune_visit, if_neg hbreak, if_neg hwt, if_neg hkept, hsub]
          rw [hstep]
          obtain ⟨ha, hb, hc⟩ := ih (w - e.weight) (by omega) (by omega)
          refine ⟨List.Sublist.cons _ ha, ?_, ?_⟩
          · have hdrop : prune_removable now lifetime e = true := by
              simp [prune_removable, hkept, hcond.1, hcond.2]
            simp only [List.filter_cons, hdrop]
            simp only [Bool.not_true]
            rw [hb]
            simp
          · simp only [hsum_cons]
            omega

/-- C7 (amended): `prune` visits the ordering multiset from the
lowest-priority end (never touching the first element), removes only
deregister entries that are not kept-by-block and whose receive time lies
before `now − DEREGISTER_LIFETIME`, and stops at the first standard
transaction, at the first deregister still inside its lifetime window, or
once the weight is at most the target; every standard, kept-by-block or
in-window entry remains in the pool (so the weight can stay above the
target), and the remaining weight accounts exactly for the removed
entries. -/
theorem tx_memory_pool_prune_spec (now lifetime target : Nat) (pool : List pool_entry)
    (w : Nat) (hsum : sum_weights pool ≤ w) (hU : w < U64) :
    (tx_memory_pool_prune now lifetime target pool w).1.Sublist pool ∧
    (tx_memory_pool_prune now lifetime target pool w).1.filter
        (fun e => !prune_removable now lifetime e) =
      pool.filter (fun e => !prune_removable now lifetime e) ∧
    (tx_memory_pool_prune now lifetime target pool w).2 + sum_weights pool =
      w + sum_weights (tx_memory_pool_prune now lifetime target pool w).1 := by
  have hsumrev : ∀ l : List pool_entry, sum_weights l.reverse = sum_weights l := by
    intro l
    simp [sum_weights, List.map_reverse, List.sum_reverse]
  match pool with
  | [] => exact ⟨List.Sublist.refl _, rfl, rfl⟩
  | first :: tail =>
    have hsum_tail : sum_weights tail.reverse ≤ w := by
      have h1 := hsumrev tail
      have h2 : sum_weights (first :: tail) = first.weight + sum_weights tail := by
        simp [sum_weights]
      omega
    obtain ⟨ha, hb, hc⟩ := prune_visit_spec now lifetime target tail.reverse w hsum_tail hU
    have hrev : ((prune_visit now lifetime target tail.reverse w).1.reverse).Sublist tail := by
      have := ha.reverse
      simpa using this
    refine ⟨?_, ?_, ?_⟩
    · exact List.Sublist.cons₂ _ hrev
    · show (first :: (prune_visit now lifetime target tail.reverse w).1.reverse).filter _ =
        (first :: tail).filter _
      simp only [List.filter_cons]
      have hfr : ((prune_visit now lifetime target tail.reverse w).1.reverse).filter
          (fun e => !prune_removable now lifetime e) =
          tail.filter (fun e => !prune_removable now lifetime e) := by
        rw [List.filter_reverse, hb, List.filter_reverse, List.reverse_reverse]
      rw [hfr]
    · show (tx_memory_pool_prune now lifetime target (first :: tail) w).2 + _ = _
      have h2 : (tx_memory_pool_prune now lifetime target (first :: tail) w).2 =
          (prune_visit now lifetime target tail.reverse w).2 := rfl
      have h3 : sum_weights (tx_memory_pool_prune now lifetime target (first :: tail) w).1 =
          first.weight + sum_weights (prune_visit now lifetime target tail.reverse w).1 := by
        show sum_weights (first :: (prune_visit now lifetime target tail.reverse w).1.reverse) = _
        have := hsumrev (prune_visit now lifetime target tail.reverse w).1
        simp only [sum_weights, List.map_cons, List.sum_cons] at this ⊢
        omega
      have h4 : sum_weights (first :: tail) = first.weight + sum_weights tail := by
        simp [sum_weights]
      have h5 := hsumrev tail
      rw [h2, h3, h4]
      rw [h5] at hc
      omega

theorem tx_memory_pool_prune_spec_witness :
    (tx_memory_pool_prune 100 10 5
        [{ is_deregister := true, receive_time := 0, weight := 4 },
         { is_deregister := true, receive_time := 0, weight := 6 }] 10).1.Sublist
      [{ is_deregister := true, receive_time := 0, weight := 4 },
       { is_deregister := true, receive_time := 0, weight := 6 }] ∧
    (tx_memory_pool_prune 100 10 5
        [{ is_deregister := true, receive_time := 0, weight := 4 },
         { is_deregister := true, receive_time := 0, weight := 6 }] 10).1.filter
        (fun e => !prune_removable 100 10 e) =
      [{ is_deregister := true, receive_time := 0, weight := 4 },
       { is_deregister := true, receive_time := 0, weight := 6 }].filter
        (fun e => !prune_removable 100 10 e) ∧
    (tx_memory_pool_prune 100 10 5
        [{ is_deregister := true, receive_time := 0, weight := 4 },
         { is_deregister := true, receive_time := 0, weight := 6 }] 10).2 +
      sum_weights
        [{ is_deregister := true, receive_time := 0, weight := 4 },
         { is_deregister := true, receive_time := 0, weight := 6 }] =
      10 + sum_weights (tx_memory_pool_prune 100 10 5
        [{ is_deregister := true, receive_time := 0, weight := 4 },
         { is_deregister := true, receive_time := 0, weight := 6 }] 10).1 :=
  tx_memory_pool_prune_spec 100 10 5
    [{ is_deregister := true, receive_time := 0, weight := 4 },
     { is_deregister := true, receive_time := 0, weight := 6 }] 10 (by decide) (by decide)

/-- Standard (non-deregister) pool entries for the C7 counterexample. -/
def c7_standard_entry_a : pool_entry :=
  { is_deregister := false, receive_time := 0, kept_by_block := false, weight := 5 }

/-- Second standard entry for the C7 counterexample. -/
def c7_standard_entry_b : pool_entry :=
  { is_deregister := false, receive_time := 0, kept_by_block := false, weight := 10 }

/-- C7 counterexample: a pool of two standard transactions with total weight
15 and target 5.  `prune` removes nothing — the loop breaks at the first
standard transaction instead of skipping or removing it — so the claimed
removal of standard transactions until the weight is at most the target does
not happen, even though a non-kept standard candidate exists. -/
theorem tx_memory_pool_prune_standard_counterexample :
    tx_memory_pool_prune 100 10 5 [c7_standard_entry_a, c7_standard_entry_b] 15 =
      ([c7_standard_entry_a, c7_standard_entry_b], 15) ∧
    ¬ (15 : Nat) ≤ 5 ∧
    c7_standard_entry_b.kept_by_block = false := by decide

/-! ### Registry invariants (`service_node_list.cpp`) -/

/-- Sum of the contributors' `amount` fields. -/
def sum_amounts (l : List contribution) : Nat := (l.map (fun c => c.amount)).sum

/-- Sum of the contributors' `reserved` fields. -/
def sum_reserved (l : List contribution) : Nat := (l.map (fun c => c.reserved)).sum

/-- The per-entry invariant without the staking-requirement bound. -/
def entry_invariant_weak (i : service_node_info) : Prop :=
  sum_amounts i.contributors = i.total_contributed ∧
  sum_reserved i.contributors = i.total_reserved ∧
  (∀ c ∈ i.contributors, c.amount ≤ c.reserved) ∧
  i.total_contributed ≤ i.total_reserved

/-- The per-entry invariant claimed by the spec (§8). -/
def entry_invariant (i : service_node_info) : Prop :=
  entry_invariant_weak i ∧ i.total_reserved ≤ i.staking_requirement

instance (i : service_node_info) : Decidable (entry_invariant_weak i) := by
  unfold entry_invariant_weak
  infer_instance

instance (i : service_node_info) : Decidable (entry_invariant i) := by
  unfold entry_invariant
  infer_instance

/-- `check_service_node_portions` from `service_node_rules.cpp`: the loop
local `min_portions` is initialized as `std::min(portions_left,
min_portions)` from the variable being declared — an uninitialized read in
the C++ — modelled by the indeterminate parameter `junk`. -/
def check_service_node_portions (junk : Nat) : List Nat → Nat → Bool
  | [], _ => true
  | portion :: rest, portions_left =>
    if portion < min portions_left junk ∨ portions_left < portion then false
    else check_service_node_portions junk rest (portions_left - portion)

theorem check_service_node_portions_sum_le (junk : Nat) (l : List Nat) :
    ∀ left, check_service_node_portions junk l left = true →
      l.sum ≤ left ∧ ∀ p ∈ l, p ≤ left := by
  induction l with
  | nil => intro left _; exact ⟨by simp, by simp⟩
  | cons p rest ih =>
    intro left h
    simp only [check_service_node_portions] at h
    split at h
    · cases h
    · rename_i hcond
      have hple : p ≤ left := by
        rcases Nat.lt_or_ge left p with h2 | h2
        · exact absurd (Or.inr h2) hcond
        · omega
      obtain ⟨hsum, hall⟩ := ih (left - p) h
      refine ⟨by simp; omega, ?_⟩
      intro q hq
      rcases List.mem_cons.mp hq with hq | hq
      · omega
      · have := hall q hq
        omega

/-- The reserved-amount basis of `is_registration_tx`
(`service_node_list.cpp`, lines 461–476): `staking_requirement` below hard
fork 12 and from hard fork 17, `MAX_OPERATOR_V12 * COIN` (the parameter
`max_operator_v12_coin`, a configuration product defined outside the sources
at hand) in between. -/
def registration_basis (hf staking_requirement max_operator_v12_coin : Nat) : Nat :=
  if hf < 12 then staking_requirement
  else if hf < 17 then max_operator_v12_coin
  else staking_requirement

/-- One contributor's reserved amount at registration: `mul128(basis,
portion)` then `div128_64` by `STAKING_PORTIONS`, low 64 bits kept. -/
def registration_reserved (basis portion : Nat) : Nat :=
  basis * portion / STAKING_PORTIONS % U64

/-- The `service_node_info` built by the tail of `is_registration_tx`
(`service_node_list.cpp`, lines 437–482) once every check has passed:
contributors with amount 0 and the computed reserved amounts,
`total_contributed = 0` and `total_reserved` accumulated as their sum. -/
def registration_info (hf staking_requirement max_operator_v12_coin : Nat)
    (addresses portions : List Nat) (portions_for_operator block_height index : Nat) :
    service_node_info :=
  let contributors := (addresses.zip portions).map (fun ap =>
    { amount := 0,
      reserved := registration_reserved
        (registration_basis hf staking_requirement max_operator_v12_coin) ap.2,
      address := ap.1 })
  { registration_height := block_height, last_reward_block_height := block_height,
    last_reward_transaction_index := index, contributors := contributors,
    total_contributed := 0, total_reserved := sum_reserved contributors,
    staking_requirement := staking_requirement,
    portions_for_operator := portions_for_operator,
    operator_address := addresses.headD 0 }

/-- The staking cap used by `process_contribution_tx`
(`service_node_list.cpp`, lines 680–687): `staking_requirement` below hard
fork 12 and from 17, `MAX_POOL_STAKERS_V12 * COIN` (the parameter
`max_pool_stakers_v12_coin`) in between. -/
def contribution_cap (hf staking_requirement max_pool_stakers_v12_coin : Nat) : Nat :=
  if hf < 12 then staking_requirement
  else if hf < 17 then max_pool_stakers_v12_coin
  else staking_requirement

/-- The mutation `process_contribution_tx` applies to the located contributor
(`service_node_list.cpp`, lines 689–705): clamp the transferred amount
against the reservable headroom, add it to the contributor's amount and
`total_contributed`, and raise `reserved` and `total_reserved` when the
amount overtakes the reservation. -/
def contribution_core (cap : Nat) (c : contribution)
    (total_contributed total_reserved transferred0 : Nat) : contribution × Nat × Nat :=
  let can_increase_reserved_by := u64sub cap total_reserved
  let max_amount := u64add c.reserved can_increase_reserved_by
  let transferred := min (u64sub max_amount c.amount) transferred0
  let new_amount := u64add c.amount transferred
  if c.reserved < new_amount then
    ({ amount := new_amount, reserved := new_amount, address := c.address },
     u64add total_contributed transferred,
     u64add total_reserved (new_amount - c.reserved))
  else
    ({ amount := new_amount, reserved := c.reserved, address := c.address },
     u64add total_contributed transferred, total_reserved)

/-- In-place update of the first contributor with the given address
(`*contrib_iter` mutation). -/
def update_first_contributor (address : Nat) (c2 : contribution) :
    List contribution → List contribution
  | [] => []
  | c :: rest =>
    if c.address = address then c2 :: rest
    else c :: update_first_contributor address c2 rest

/-- `service_node_list::process_contribution_tx` (`service_node_list.cpp`,
lines 614–710) after the pubkey lookup and `get_contribution` extraction:
`address` and `transferred0` come from the transaction;
`burned_amount` / `total_fee` / `miner_fee` from its fee data;
`min_pool_coin` / `max_pool_coin` (`MIN/MAX_POOL_STAKERS_V12 * COIN`),
`max_contribs` (the hf-gated contributor limit) and `min_contribution`
(`get_min_node_contribution`) enter as parameters because their definitions
live outside the sources at hand.  Returns the updated entry (the entry
unchanged when a check rejects). -/
def process_contribution_tx (hf : Nat)
    (min_pool_coin max_pool_coin max_contribs min_contribution : Nat)
    (burned_amount total_fee miner_fee : Nat) (info : service_node_info)
    (address transferred0 block_height index : Nat) : service_node_info :=
  if info.is_fully_funded then info
  else if 12 ≤ hf ∧
      u64sub total_fee miner_fee < (if hf < 16 then transferred0 / 1000 else 1) then info
  else if 12 ≤ hf ∧ burned_amount < u64sub total_fee miner_fee then info
  else if 12 ≤ hf ∧ transferred0 < min_pool_coin then info
  else if 12 ≤ hf ∧ hf < 17 ∧ max_pool_coin < transferred0 then info
  else
    match info.contributors.find? (fun c => c.address == address) with
    | some c =>
      { info with
        contributors := update_first_contributor address
          (contribution_core (contribution_cap hf info.staking_requirement max_pool_coin)
            c info.total_contributed info.total_reserved transferred0).1 info.contributors,
        total_contributed :=
          (contribution_core (contribution_cap hf info.staking_requirement max_pool_coin)
            c info.total_contributed info.total_reserved transferred0).2.1,
        total_reserved :=
          (contribution_core (contribution_cap hf info.staking_requirement max_pool_coin)
            c info.total_contributed info.total_reserved transferred0).2.2,
        last_reward_block_height := block_height,
        last_reward_transaction_index := index }
    | none =>
      if max_contribs ≤ info.contributors.length ∨ transferred0 < min_contribution then info
      else
        { info with
          contributors := info.contributors ++
            [(contribution_core (contribution_cap hf info.staking_requirement max_pool_coin)
              { amount := 0, reserved := 0, address := address }
              info.total_contributed info.total_reserved transferred0).1],
          total_contributed :=
            (contribution_core (contribution_cap hf info.staking_requirement max_pool_coin)
              { amount := 0, reserved := 0, address := address }
              info.total_contributed info.total_reserved transferred0).2.1,
          total_reserved :=
            (contribution_core (contribution_cap hf info.staking_requirement max_pool_coin)
              { amount := 0, reserved := 0, address := address }
              info.total_contributed info.total_reserved transferred0).2.2,
          last_reward_block_height := block_height,
          last_reward_transaction_index := index }

/-- The winner bump of `process_block` (`service_node_list.cpp`, lines
765–772): the winner re-registers at transaction index `UINT32_MAX`. -/
def winner_bump (block_height : Nat) (info : service_node_info) : service_node_info :=
  { info with last_reward_block_height := block_height,
              last_reward_transaction_index := U32MAX }

/-- The swarm-id assignment of `update_swarms` (`service_node_list.cpp`,
lines 352–360). -/
def set_swarm_id (swarm : Nat) (info : service_node_info) : service_node_info :=
  { info with swarm_id := swarm }

/-- `service_nodes_infos[key] = info`: replace-or-append on the association
list, used by registration and by `rollback_change::apply`. -/
def set_key (key : Nat) (info : service_node_info)
    (infos : List (Nat × service_node_info)) : List (Nat × service_node_info) :=
  if infos.any (fun p => p.1 == key) then
    infos.map (fun p => if p.1 = key then (key, info) else p)
  else infos ++ [(key, info)]

theorem div_add_div_le (a b c : Nat) : a / c + b / c ≤ (a + b) / c := by
  rcases Nat.eq_zero_or_pos c with hc | hc
  · subst hc; simp
  · rw [Nat.le_div_iff_mul_le hc, Nat.add_mul]
    have h1 := Nat.div_mul_le_self a c
    have h2 := Nat.div_mul_le_self b c
    omega

theorem sum_div_le (b P : Nat) (l : List Nat) :
    ((l.map (fun p => b * p / P)).sum ≤ b * l.sum / P) := by
  induction l with
  | nil => simp
  | cons p rest ih =>
    simp only [List.map_cons, List.sum_cons]
    calc b * p / P + (rest.map (fun p => b * p / P)).sum
        ≤ b * p / P + b * rest.sum / P := by omega
      _ ≤ (b * p + b * rest.sum) / P := div_add_div_le _ _ _
      _ = b * (p + rest.sum) / P := by rw [Nat.mul_add]

theorem mul_div_portions_le (b p : Nat) (hp : p ≤ STAKING_PORTIONS) :
    b * p / STAKING_PORTIONS ≤ b := by
  calc b * p / STAKING_PORTIONS ≤ b * STAKING_PORTIONS / STAKING_PORTIONS :=
        Nat.div_le_div_right (Nat.mul_le_mul_left _ hp)
    _ = b := Nat.mul_div_cancel b STAKING_PORTIONS_pos

theorem registration_reserved_eq (b p : Nat) (hp : p ≤ STAKING_PORTIONS) (hb : b < U64) :
    registration_reserved b p = b * p / STAKING_PORTIONS := by
  unfold registration_reserved
  exact Nat.mod_eq_of_lt (Nat.lt_of_le_of_lt (mul_div_portions_le b p hp) hb)

theorem sum_amounts_le_sum_reserved (l : List contribution)
    (h : ∀ c ∈ l, c.amount ≤ c.reserved) : sum_amounts l ≤ sum_reserved l := by
  induction l with
  | nil => simp [sum_amounts, sum_reserved]
  | cons c rest ih =>
    have h1 := h c (List.mem_cons_self _ _)
    have h2 := ih (fun d hd => h d (List.mem_cons_of_mem _ hd))
    simp only [sum_amounts, sum_reserved, List.map_cons, List.sum_cons] at h2 ⊢
    omega

theorem mem_reserved_le_sum (l : List contribution) :
    ∀ c ∈ l, c.reserved ≤ sum_reserved l := by
  induction l with
  | nil => simp
  | cons c0 rest ih =>
    intro c hc
    simp only [sum_reserved, List.map_cons, List.sum_cons]
    rcases List.mem_cons.mp hc with hc | hc
    · subst hc; omega
    · have := ih c hc
      simp only [sum_reserved] at this
      omega

theorem sums_member_bound (l : List contribution) (hpt : ∀ d ∈ l, d.amount ≤ d.reserved) :
    ∀ c ∈ l, sum_amounts l + c.reserved ≤ sum_reserved l + c.amount := by
  induction l with
  | nil => simp
  | cons c0 rest ih =>
    intro c hc
    have hpt0 := hpt c0 (List.mem_cons_self _ _)
    have hptr : ∀ d ∈ rest, d.amount ≤ d.reserved :=
      fun d hd => hpt d (List.mem_cons_of_mem _ hd)
    simp only [sum_amounts, sum_reserved, List.map_cons, List.sum_cons]
    rcases List.mem_cons.mp hc with hc | hc
    · subst hc
      have := sum_amounts_le_sum_reserved rest hptr
      simp only [sum_amounts, sum_reserved] at this
      omega
    · have := ih hptr c hc
      simp only [sum_amounts, sum_reserved] at this
      omega

theorem contribution_core_spec (cap : Nat) (c : contribution) (TC TR t0 : Nat)
    (hcap : cap < U64) (hTR : TR ≤ cap) (hR : c.reserved ≤ TR)
    (hA : c.amount ≤ c.reserved) (hsum : TC + c.reserved ≤ TR + c.amount) :
    ∃ t, t ≤ t0 ∧
      (contribution_core cap c TC TR t0).1.address = c.address ∧
      (contribution_core cap c TC TR t0).1.amount = c.amount + t ∧
      (contribution_core cap c TC TR t0).2.1 = TC + t ∧
      c.reserved ≤ (contribution_core cap c TC TR t0).1.reserved ∧
      (contribution_core cap c TC TR t0).1.amount ≤
        (contribution_core cap c TC TR t0).1.reserved ∧
      (contribution_core cap c TC TR t0).2.2 =
        TR + ((contribution_core cap c TC TR t0).1.reserved - c.reserved) ∧
      (contribution_core cap c TC TR t0).2.2 ≤ cap := by
  have hsub1 : u64sub cap TR = cap - TR := u64sub_eq_of_le hTR hcap
  have hma_lt : c.reserved + (cap - TR) < U64 := by omega
  have hadd1 : u64add c.reserved (u64sub cap TR) = c.reserved + (cap - TR) := by
    rw [hsub1]; exact u64add_eq_of_lt hma_lt
  have hAM : c.amount ≤ c.reserved + (cap - TR) := by omega
  have hsub2 : u64sub (c.reserved + (cap - TR)) c.amount =
      c.reserved + (cap - TR) - c.amount := u64sub_eq_of_le hAM hma_lt
  have htle : min (c.reserved + (cap - TR) - c.amount) t0 ≤ t0 := Nat.min_le_right _ _
  have htM : c.amount + min (c.reserved + (cap - TR) - c.amount) t0 ≤
      c.reserved + (cap - TR) := by omega
  have hadd2 : u64add c.amount (min (c.reserved + (cap - TR) - c.amount) t0) =
      c.amount + min (c.reserved + (cap - TR) - c.amount) t0 :=
    u64add_eq_of_lt (by omega)
  have hTCt : TC + min (c.reserved + (cap - TR) - c.amount) t0 < U64 := by omega
  have hadd3 : u64add TC (min (c.reserved + (cap - TR) - c.amount) t0) =
      TC + min (c.reserved + (cap - TR) - c.amount) t0 := u64add_eq_of_lt hTCt
  have hexp : contribution_core cap c TC TR t0 =
      (if c.reserved < c.amount + min (c.reserved + (cap - TR) - c.amount) t0 then
        ({ amount := c.amount + min (c.reserved + (cap - TR) - c.amount) t0,
           reserved := c.amount + min (c.reserved + (cap - TR) - c.amount) t0,
           address := c.address },
         u64add TC (min (c.reserved + (cap - TR) - c.amount) t0),
         u64add TR (c.amount + min (c.reserved + (cap - TR) - c.amount) t0 - c.reserved))
       else
        ({ amount := c.amount + min (c.reserved + (cap - TR) - c.amount) t0,
           reserved := c.reserved, address := c.address },
         u64add TC (min (c.reserved + (cap - TR) - c.amount) t0), TR)) := by
    simp only [contribution_core, hadd1, hsub2, hadd2]
  refine ⟨min (c.reserved + (cap - TR) - c.amount) t0, htle, ?_⟩
  rw [hexp]
  by_cases hover : c.reserved < c.amount + min (c.reserved + (cap - TR) - c.amount) t0
  · rw [if_pos hover]
    have hTR2 : TR + (c.amount + min (c.reserved + (cap - TR) - c.amount) t0 - c.reserved)
        ≤ cap := by omega
    have hadd4 : u64add TR
        (c.amount + min (c.reserved + (cap - TR) - c.amount) t0 - c.reserved) =
        TR + (c.amount + min (c.reserved + (cap - TR) - c.amount) t0 - c.reserved) :=
      u64add_eq_of_lt (by omega)
    refine ⟨rfl, rfl, hadd3, ?_, ?_, ?_, ?_⟩
    · show c.reserved ≤ c.amount + min (c.reserved + (cap - TR) - c.amount) t0
      omega
    · show c.amount + min (c.reserved + (cap - TR) - c.amount) t0 ≤
        c.amount + min (c.reserved + (cap - TR) - c.amount) t0
      exact Nat.le_refl _
    · show u64add TR _ = TR +
        (c.amount + min (c.reserved + (cap - TR) - c.amount) t0 - c.reserved)
      rw [hadd4]
    · show u64add TR _ ≤ cap
      rw [hadd4]
      exact hTR2
  · rw [if_neg hover]
    refine ⟨rfl, rfl, hadd3, Nat.le_refl _, ?_, ?_, ?_⟩
    · show c.amount + min (c.reserved + (cap - TR) - c.amount) t0 ≤ c.reserved
      omega
    · show TR = TR + (c.reserved - c.reserved)
      omega
    · show TR ≤ cap
      exact hTR

theorem update_first_contributor_spec (addr : Nat) (c2 : contribution)
    (l : List contribution) :
    ∀ c, l.find? (fun c => c.address == addr) = some c →
      sum_amounts (update_first_contributor addr c2 l) + c.amount =
        sum_amounts l + c2.amount ∧
      sum_reserved (update_first_contributor addr c2 l) + c.reserved =
        sum_reserved l + c2.reserved ∧
      (∀ d ∈ update_first_contributor addr c2 l, d = c2 ∨ d ∈ l) ∧
      c ∈ l := by
  induction l with
  | nil => intro c h; simp [List.find?] at h
  | cons c0 rest ih =>
    intro c h
    by_cases h0 : c0.address = addr
    · rw [List.find?_cons_of_pos _ (by simp [h0])] at h
      have hc : c0 = c := Option.some_inj.mp h
      subst hc
      simp only [update_first_contributor, if_pos h0]
      refine ⟨?_, ?_, ?_, List.mem_cons_self _ _⟩
      · simp [sum_amounts]; omega
      · simp [sum_reserved]; omega
      · intro d hd
        rcases List.mem_cons.mp hd with hd | hd
        · exact Or.inl hd
        · exact Or.inr (List.mem_cons_of_mem _ hd)
    · rw [List.find?_cons_of_neg _ (by simp [h0])] at h
      obtain ⟨hsa, hsr, hmem, hin⟩ := ih c h
      simp only [update_first_contributor, if_neg h0]
      refine ⟨?_, ?_, ?_, List.mem_cons_of_mem _ hin⟩
      · simp only [sum_amounts, List.map_cons, List.sum_cons] at hsa ⊢
        omega
      · simp only [sum_reserved, List.map_cons, List.sum_cons] at hsr ⊢
        omega
      · intro d hd
        rcases List.mem_cons.mp hd with hd | hd
        · exact Or.inr (by rw [hd]; exact List.mem_cons_self _ _)
        · rcases hmem d hd with h2 | h2
          · exact Or.inl h2
          · exact Or.inr (List.mem_cons_of_mem _ h2)

theorem contribution_update_pieces (cap : Nat) (l : List contribution) (TC TR t0 address : Nat)
    (c : contribution) (heq : l.find? (fun c => c.address == address) = some c)
    (hsa : sum_amounts l = TC) (hsr : sum_reserved l = TR)
    (hpt : ∀ d ∈ l, d.amount ≤ d.reserved)
    (hcapU : cap < U64) (hTRcap : TR ≤ cap) :
    sum_amounts (update_first_contributor address (contribution_core cap c TC TR t0).1 l) =
      (contribution_core cap c TC TR t0).2.1 ∧
    sum_reserved (update_first_contributor address (contribution_core cap c TC TR t0).1 l) =
      (contribution_core cap c TC TR t0).2.2 ∧
    (∀ d ∈ update_first_contributor address (contribution_core cap c TC TR t0).1 l,
      d.amount ≤ d.reserved) ∧
    (contribution_core cap c TC TR t0).2.1 ≤ (contribution_core cap c TC TR t0).2.2 ∧
    (contribution_core cap c TC TR t0).2.2 ≤ cap := by
  obtain ⟨husa, husr, humem, hcin⟩ :=
    update_first_contributor_spec address (contribution_core cap c TC TR t0).1 l c heq
  have hR : c.reserved ≤ TR := by
    rw [← hsr]; exact mem_reserved_le_sum _ c hcin
  have hA := hpt c hcin
  have hsum : TC + c.reserved ≤ TR + c.amount := by
    rw [← hsa, ← hsr]; exact sums_member_bound _ hpt c hcin
  obtain ⟨t, htle, haddr, hamt, htc2, hres_ge, hale, htr2, htrcap2⟩ :=
    contribution_core_spec cap c TC TR t0 hcapU hTRcap hR hA hsum
  have hptnew : ∀ d ∈ update_first_contributor address (contribution_core cap c TC TR t0).1 l,
      d.amount ≤ d.reserved := by
    intro d hd
    rcases humem d hd with hd2 | hd2
    · rw [hd2]; exact hale
    · exact hpt d hd2
  have hsa2 : sum_amounts (update_first_contributor address
      (contribution_core cap c TC TR t0).1 l) = (contribution_core cap c TC TR t0).2.1 := by
    omega
  have hsr2 : sum_reserved (update_first_contributor address
      (contribution_core cap c TC TR t0).1 l) = (contribution_core cap c TC TR t0).2.2 := by
    omega
  refine ⟨hsa2, hsr2, hptnew, ?_, htrcap2⟩
  have := sum_amounts_le_sum_reserved _ hptnew
  omega

theorem contribution_append_pieces (cap : Nat) (l : List contribution) (TC TR t0 address : Nat)
    (hsa : sum_amounts l = TC) (hsr : sum_reserved l = TR)
    (hpt : ∀ d ∈ l, d.amount ≤ d.reserved) (htc : TC ≤ TR)
    (hcapU : cap < U64) (hTRcap : TR ≤ cap) :
    sum_amounts (l ++ [(contribution_core cap { amount := 0, reserved := 0, address := address }
        TC TR t0).1]) =
      (contribution_core cap { amount := 0, reserved := 0, address := address } TC TR t0).2.1 ∧
    sum_reserved (l ++ [(contribution_core cap { amount := 0, reserved := 0, address := address }
        TC TR t0).1]) =
      (contribution_core cap { amount := 0, reserved := 0, address := address } TC TR t0).2.2 ∧
    (∀ d ∈ l ++ [(contribution_core cap { amount := 0, reserved := 0, address := address }
        TC TR t0).1], d.amount ≤ d.reserved) ∧
    (contribution_core cap { amount := 0, reserved := 0, address := address } TC TR t0).2.1 ≤
      (contribution_core cap { amount := 0, reserved := 0, address := address } TC TR t0).2.2 ∧
    (contribution_core cap { amount := 0, reserved := 0, address := address } TC TR t0).2.2 ≤
      cap := by
  obtain ⟨t, htle, haddr, hamt, htc2, hres_ge, hale, htr2, htrcap2⟩ :=
    contribution_core_spec cap { amount := 0, reserved := 0, address := address } TC TR t0
      hcapU hTRcap (Nat.zero_le _) (Nat.le_refl _) (by show TC + 0 ≤ TR + 0; omega)
  have hsaapp : sum_amounts (l ++ [(contribution_core cap
      { amount := 0, reserved := 0, address := address } TC TR t0).1]) =
      sum_amounts l + (contribution_core cap
        { amount := 0, reserved := 0, address := address } TC TR t0).1.amount := by
    unfold sum_amounts
    rw [List.map_append, List.sum_append, List.map_singleton, List.sum_singleton]
  have hsrapp : sum_reserved (l ++ [(contribution_core cap
      { amount := 0, reserved := 0, address := address } TC TR t0).1]) =
      sum_reserved l + (contribution_core cap
        { amount := 0, reserved := 0, address := address } TC TR t0).1.reserved := by
    unfold sum_reserved
    rw [List.map_append, List.sum_append, List.map_singleton, List.sum_singleton]
  have hptnew : ∀ d ∈ l ++ [(contribution_core cap
      { amount := 0, reserved := 0, address := address } TC TR t0).1],
      d.amount ≤ d.reserved := by
    intro d hd
    rcases List.mem_append.mp hd with hd2 | hd2
    · exact hpt d hd2
    · rcases List.mem_singleton.mp hd2 with hd3
      rw [hd3]; exact hale
  have hsa2 : sum_amounts (l ++ [(contribution_core cap
      { amount := 0, reserved := 0, address := address } TC TR t0).1]) =
      (contribution_core cap { amount := 0, reserved := 0, address := address } TC TR t0).2.1

      := by
    have h0 : ({ amount := 0, reserved := 0, address := address } : contribution).amount = 0 :=
      rfl
    omega
  have hsr2 : sum_reserved (l ++ [(contribution_core cap
      { amount := 0, reserved := 0, address := address } TC TR t0).1]) =
      (contribution_core cap { amount := 0, reserved := 0, address := address } TC TR t0).2.2
      := by
    have h0 : ({ amount := 0, reserved := 0, address := address } : contribution).reserved = 0 :=
      rfl
    omega
  refine ⟨hsa2, hsr2, hptnew, ?_, htrcap2⟩
  have := sum_amounts_le_sum_reserved _ hptnew
  omega

theorem registration_info_invariant (hf s max_operator_v12_coin : Nat)
    (addresses portions : List Nat) (pop block_height index junk : Nat)
    (hchk : check_service_node_portions junk portions STAKING_PORTIONS = true)
    (hlen : portions.length ≤ addresses.length)
    (hbU : registration_basis hf s max_operator_v12_coin < U64) :
    entry_invariant_weak
      (registration_info hf s max_operator_v12_coin addresses portions pop block_height index) ∧
    (registration_info hf s max_operator_v12_coin addresses portions pop block_height
        index).total_reserved ≤ registration_basis hf s max_operator_v12_coin ∧
    ((hf < 12 ∨ 17 ≤ hf) → entry_invariant
      (registration_info hf s max_operator_v12_coin addresses portions pop block_height
        index)) := by
  obtain ⟨hsumP, hallP⟩ := check_service_node_portions_sum_le junk portions _ hchk
  have hmap : ((addresses.zip portions).map (fun ap =>
      ({ amount := 0,
         reserved := registration_reserved
           (registration_basis hf s max_operator_v12_coin) ap.2,
         address := ap.1 } : contribution))).map (fun c => c.reserved) =
      ((addresses.zip portions).map Prod.snd).map (fun p =>
        registration_reserved (registration_basis hf s max_operator_v12_coin) p) := by
    simp [List.map_map]
  have hsnd : (addresses.zip portions).map Prod.snd = portions :=
    List.map_snd_zip addresses portions hlen
  have hres_bound : sum_reserved ((addresses.zip portions).map (fun ap =>
      ({ amount := 0,
         reserved := registration_reserved
           (registration_basis hf s max_operator_v12_coin) ap.2,
         address := ap.1 } : contribution))) ≤
      registration_basis hf s max_operator_v12_coin := by
    unfold sum_reserved
    rw [hmap, hsnd]
    have heach : portions.map (fun p =>
        registration_reserved (registration_basis hf s max_operator_v12_coin) p) =
        portions.map (fun p =>
          registration_basis hf s max_operator_v12_coin * p / STAKING_PORTIONS) := by
      apply List.map_congr_left
      intro p hp
      exact registration_reserved_eq _ p (hallP p hp) hbU
    rw [heach]
    calc (portions.map (fun p =>
          registration_basis hf s max_operator_v12_coin * p / STAKING_PORTIONS)).sum
        ≤ registration_basis hf s max_operator_v12_coin * portions.sum / STAKING_PORTIONS :=
          sum_div_le _ _ _
      _ ≤ registration_basis hf s max_operator_v12_coin * STAKING_PORTIONS /
            STAKING_PORTIONS :=
          Nat.div_le_div_right (Nat.mul_le_mul_left _ hsumP)
      _ = registration_basis hf s max_operator_v12_coin :=
          Nat.mul_div_cancel _ STAKING_PORTIONS_pos
  have hamounts : sum_amounts ((addresses.zip portions).map (fun ap =>
      ({ amount := 0,
         reserved := registration_reserved
           (registration_basis hf s max_operator_v12_coin) ap.2,
         address := ap.1 } : contribution))) = 0 := by
    unfold sum_amounts
    apply List.sum_eq_zero
    intro x hx
    obtain ⟨c, hc, hcx⟩ := List.mem_map.mp hx
    obtain ⟨ap, _, hap⟩ := List.mem_map.mp hc
    rw [← hcx, ← hap]
  have hw : entry_invariant_weak
      (registration_info hf s max_operator_v12_coin addresses portions pop block_height
        index) := by
    refine ⟨hamounts, rfl, ?_, ?_⟩
    · intro c hc
      obtain ⟨ap, _, hap⟩ := List.mem_map.mp hc
      rw [← hap]
      exact Nat.zero_le _
    · exact Nat.zero_le _
  refine ⟨hw, hres_bound, ?_⟩
  intro hreg
  refine ⟨hw, ?_⟩
  have hbs : registration_basis hf s max_operator_v12_coin = s := by
    unfold registration_basis
    rcases hreg with h | h
    · rw [if_pos h]
    · rw [if_neg (by omega), if_neg (by omega)]
  show sum_reserved _ ≤ s
  exact Nat.le_trans hres_bound (Nat.le_of_eq hbs)

theorem contribution_cap_window (hf s mxp : Nat) (h : hf < 12 ∨ 17 ≤ hf) :
    contribution_cap hf s mxp = s := by
  unfold contribution_cap
  rcases h with h | h
  · rw [if_pos h]
  · rw [if_neg (by omega), if_neg (by omega)]

/-- Introduction form of `entry_invariant_weak` on an explicit record, keeping
all unification syntactic. -/
theorem entry_invariant_weak_mk (a b c : Nat) (d : List contribution)
    (e f g h i j : Nat) (h1 : sum_amounts d = e) (h2 : sum_reserved d = f)
    (h3 : ∀ x ∈ d, x.amount ≤ x.reserved) (h4 : e ≤ f) :
    entry_invariant_weak (service_node_info.mk a b c d e f g h i j) :=
  ⟨h1, h2, h3, h4⟩

theorem mk_total_reserved_le (a b c : Nat) (d : List contribution)
    (e f g h i j cap : Nat) (hle : f ≤ cap) :
    (service_node_info.mk a b c d e f g h i j).total_reserved ≤ cap := hle

theorem mk_staking_requirement_eq (a b c : Nat) (d : List contribution)
    (e f g h i j : Nat) :
    (service_node_info.mk a b c d e f g h i j).staking_requirement = g := rfl

/-- Introduction form of `entry_invariant` on an explicit record. -/
theorem entry_invariant_mk (a b c : Nat) (d : List contribution)
    (e f g h i j : Nat) (h1 : sum_amounts d = e) (h2 : sum_reserved d = f)
    (h3 : ∀ x ∈ d, x.amount ≤ x.reserved) (h4 : e ≤ f) (h5 : f ≤ g) :
    entry_invariant (service_node_info.mk a b c d e f g h i j) :=
  ⟨⟨h1, h2, h3, h4⟩, h5⟩

set_option maxRecDepth 2000 in
/-- C6 (amended): every registry operation preserves, for every registry
entry, the sum and ordering invariants — `Σ contributors.amount =
total_contributed`, `Σ contributors.reserved = total_reserved`, each
contributor's `amount ≤ reserved`, and `total_contributed ≤ total_reserved` —
and preserves `total_reserved ≤ staking_requirement` for hard forks below 12
and from 17; for 12 ≤ hf < 17, registration bounds `total_reserved` by
`MAX_OPERATOR_V12 * COIN` and contribution by `MAX_POOL_STAKERS_V12 * COIN`
instead of by `staking_requirement`.  Deregistration, expiry, winner bump,
swarm update and rollback preserve the full invariant unconditionally. -/
theorem registry_operations_preserve_invariants :
    (∀ hf s mo addresses portions pop H idx junk,
      check_service_node_portions junk portions STAKING_PORTIONS = true →
      portions.length ≤ addresses.length →
      registration_basis hf s mo < U64 →
      entry_invariant_weak (registration_info hf s mo addresses portions pop H idx) ∧
      (registration_info hf s mo addresses portions pop H idx).total_reserved ≤
        registration_basis hf s mo ∧
      ((hf < 12 ∨ 17 ≤ hf) →
        entry_invariant (registration_info hf s mo addresses portions pop H idx))) ∧
    (∀ hf mnp mxp mc mcon ba tf mf info addr t0 H idx,
      entry_invariant_weak info →
      contribution_cap hf info.staking_requirement mxp < U64 →
      info.total_reserved ≤ contribution_cap hf info.staking_requirement mxp →
      entry_invariant_weak
        (process_contribution_tx hf mnp mxp mc mcon ba tf mf info addr t0 H idx) ∧
      (process_contribution_tx hf mnp mxp mc mcon ba tf mf info addr t0 H idx).total_reserved ≤
        contribution_cap hf info.staking_requirement mxp ∧
      (process_contribution_tx hf mnp mxp mc mcon ba tf mf info addr t0 H
          idx).staking_requirement = info.staking_requirement ∧
      ((hf < 12 ∨ 17 ≤ hf) → entry_invariant info →
        entry_invariant
          (process_contribution_tx hf mnp mxp mc mcon ba tf mf info addr t0 H idx))) ∧
    (∀ H info, entry_invariant info → entry_invariant (winner_bump H info)) ∧
    (∀ sw info, entry_invariant info → entry_invariant (set_swarm_id sw info)) ∧
    (∀ k infos, (∀ p ∈ infos, entry_invariant p.2) →
      ∀ p ∈ erase_key k infos, entry_invariant p.2) ∧
    (∀ k i infos, (∀ p ∈ infos, entry_invariant p.2) → entry_invariant i →
      ∀ p ∈ set_key k i infos, entry_invariant p.2) := by
  refine ⟨?_, ?_, ?_, ?_, ?_, ?_⟩
  · intro hf s mo addresses portions pop H idx junk hchk hlen hbU
    exact registration_info_invariant hf s mo addresses portions pop H idx junk hchk hlen hbU
  · intro hf mnp mxp mc mcon ba tf mf info addr t0 H idx hw hcapU hTRcap
    obtain ⟨hsa, hsr, hpt, htc⟩ := hw
    have htriv : entry_invariant_weak info ∧
        info.total_reserved ≤ contribution_cap hf info.staking_requirement mxp ∧
        info.staking_requirement = info.staking_requirement ∧
        ((hf < 12 ∨ 17 ≤ hf) → entry_invariant info → entry_invariant info) :=
      ⟨⟨hsa, hsr, hpt, htc⟩, hTRcap, rfl, fun _ h => h⟩
    unfold process_contribution_tx
    generalize (if hf < 16 then t0 / 1000 else 1 : Nat) = bfee
    split
    case isTrue => exact htriv
    case isFalse =>
      split
      case isTrue => exact htriv
      case isFalse =>
        split
        case isTrue => exact htriv
        case isFalse =>
          split
          case isTrue => exact htriv
          case isFalse =>
            split
            case isTrue => exact htriv
            case isFalse =>
              split
              · rename_i c heq
                obtain ⟨p1, p2, p3, p4, p5⟩ := contribution_update_pieces
                  (contribution_cap hf info.staking_requirement mxp) info.contributors
                  info.total_contributed info.total_reserved t0 addr c heq hsa hsr hpt
                  hcapU hTRcap
                refine ⟨⟨p1, p2, p3, p4⟩, p5, rfl, ?_⟩
                intro hwin _
                refine ⟨⟨p1, p2, p3, p4⟩, ?_⟩
                show (contribution_core _ _ _ _ _).2.2 ≤ info.staking_requirement
                exact le_of_le_of_eq p5
                  (contribution_cap_window hf info.staking_requirement mxp hwin)
              · split
                case isTrue => exact htriv
                case isFalse =>
                  obtain ⟨p1, p2, p3, p4, p5⟩ := contribution_append_pieces
                    (contribution_cap hf info.staking_requirement mxp) info.contributors
                    info.total_contributed info.total_reserved t0 addr hsa hsr hpt htc
                    hcapU hTRcap
                  refine ⟨?_, ?_, ?_, ?_⟩
                  · exact entry_invariant_weak_mk _ _ _ _ _ _ _ _ _ _ p1 p2 p3 p4
                  · exact mk_total_reserved_le _ _ _ _ _ _ _ _ _ _ _ p5
                  · exact mk_staking_requirement_eq _ _ _ _ _ _ _ _ _ _
                  · intro hwin _
                    exact entry_invariant_mk _ _ _ _ _ _ _ _ _ _ p1 p2 p3 p4
                      (le_of_le_of_eq p5
                        (contribution_cap_window hf info.staking_requirement mxp hwin))
  · intro H info h
    exact h
  · intro sw info h
    exact h
  · intro k infos hall p hp
    exact hall p (List.mem_of_mem_filter hp)
  · intro k i infos hall hi p hp
    unfold set_key at hp
    split at hp
    · obtain ⟨q, hq, hqp⟩ := List.mem_map.mp hp
      by_cases hqk : q.1 = k
      · rw [if_pos hqk] at hqp
        rw [← hqp]
        exact hi
      · rw [if_neg hqk] at hqp
        rw [← hqp]
        exact hall q hq
    · rcases List.mem_append.mp hp with hp2 | hp2
      · exact hall p hp2
      · rw [List.mem_singleton.mp hp2]
        exact hi

/-- Registry entry for the C6 witness: one contributor, nothing reserved yet,
staking requirement 5. -/
def c6_witness_info : service_node_info :=
  { contributors := [{ amount := 0, reserved := 0, address := 1 }],
    total_contributed := 0, total_reserved := 0, staking_requirement := 5 }

theorem registry_operations_preserve_invariants_witness :
    entry_invariant_weak (process_contribution_tx 17 0 10 4 0 0 0 0 c6_witness_info 1 3 5 0) ∧
    (process_contribution_tx 17 0 10 4 0 0 0 0 c6_witness_info 1 3 5 0).total_reserved ≤
      contribution_cap 17 c6_witness_info.staking_requirement 10 ∧
    (process_contribution_tx 17 0 10 4 0 0 0 0 c6_witness_info 1 3 5 0).staking_requirement =
      c6_witness_info.staking_requirement ∧
    ((17 < 12 ∨ 17 ≤ 17) → entry_invariant c6_witness_info →
      entry_invariant (process_contribution_tx 17 0 10 4 0 0 0 0 c6_witness_info 1 3 5 0)) :=
  registry_operations_preserve_invariants.2.1 17 0 10 4 0 0 0 0 c6_witness_info 1 3 5 0
    (by decide) (by decide) (by decide)

/-- Registry entry for the C6 counterexample: invariant-satisfying, with
staking requirement 1 and nothing contributed. -/
def c6_counterexample_info : service_node_info :=
  { contributors := [{ amount := 0, reserved := 0, address := 1 }],
    total_contributed := 0, total_reserved := 0, staking_requirement := 1 }

/-- C6 counterexample: at hard fork 12, with `MIN_POOL_STAKERS_V12 * COIN =
MAX_POOL_STAKERS_V12 * COIN = 2`, a contribution of 2 to an
invariant-satisfying entry with staking requirement 1 drives
`total_reserved` to 2 > 1 = `staking_requirement` (the code clamps against
`MAX_POOL_STAKERS_V12 * COIN` instead of the staking requirement), so the
claimed preservation of `total_reserved ≤ staking_requirement` fails. -/
theorem process_contribution_tx_staking_bound_counterexample :
    entry_invariant c6_counterexample_info ∧
    (process_contribution_tx 12 2 2 4 0 0 0 0 c6_counterexample_info 1 2 5 0).total_reserved
      = 2 ∧
    (process_contribution_tx 12 2 2 4 0 0 0 0 c6_counterexample_info 1 2 5
      0).staking_requirement = 1 ∧
    ¬ entry_invariant (process_contribution_tx 12 2 2 4 0 0 0 0 c6_counterexample_info 1 2 5 0)
    := by decide

/-- Rollback-journal entries of `service_node_list` (`service_node_list.h`,
applies in `service_node_list.cpp`, lines 1135–1166): `rollback_change`
restores a key's previous info, `rollback_new` erases a key that the journal
records as newly inserted, and `prevent_rollback` marks the cull horizon past
which no rollback is possible. -/
inductive rollback_event where
  | rollback_change (block_height : Nat) (key : Nat) (info : service_node_info)
  | rollback_new (block_height : Nat) (key : Nat)
  | prevent_rollback (block_height : Nat)
deriving DecidableEq, Repr

/-- The `m_block_height` field shared by all rollback events. -/
def rollback_event.m_block_height : rollback_event → Nat
  | .rollback_change h _ _ => h
  | .rollback_new h _ => h
  | .prevent_rollback h => h

/-- `rollback_change::apply` / `rollback_new::apply` /
`prevent_rollback::apply` (`service_node_list.cpp`, lines 1135–1166):
`rollback_change` writes the stored info back, `rollback_new` erases the key
(failing when the key is absent), `prevent_rollback` always fails; `none`
models the C++ `return false`. -/
def rollback_event.apply : rollback_event →
    List (Nat × service_node_info) → Option (List (Nat × service_node_info))
  | .rollback_change _ key info, infos => some (set_key key info infos)
  | .rollback_new _ key, infos =>
    if infos.any (fun p => p.1 == key) then some (erase_key key infos) else none
  | .prevent_rollback _, _ => none

/-- `service_node_list::blockchain_detached` (`service_node_list.cpp`, lines
814–835), restricted to the rollback loop: the journal is kept newest-first
(C++ `push_back` is `cons` here), and events with `m_block_height >= height`
are applied and popped; a failing `apply` makes the C++ code `init()` and
break, modelled as `none`.  Returns the remaining journal and registry. -/
def blockchain_detached (height : Nat) :
    List rollback_event → List (Nat × service_node_info) →
    Option (List rollback_event × List (Nat × service_node_info))
  | [], infos => some ([], infos)
  | e :: rest, infos =>
    if height ≤ e.m_block_height then
      match e.apply infos with
      | some infos2 => blockchain_detached height rest infos2
      | none => none
    else some (e :: rest, infos)

/-- `service_node_list::process_registration_tx` (`service_node_list.cpp`,
lines 485–537) after `is_registration_tx` has produced `key` and `info`
(whose construction sets `registration_height = last_reward_block_height =
block_height` and `last_reward_transaction_index = index`, lines 440–443):
when the key is still present and `hf >= 5`, a re-registration past the
expiry height keeps the old entry's `last_reward` fields, pushes a
`rollback_new` journal entry, and overwrites the registry slot; otherwise
the key is fresh and is inserted with a `rollback_new` entry.  Returns the
C++ return value alongside the updated journal (newest-first) and
registry. -/
def process_registration_tx (hf lock_blocks : Nat) (key : Nat)
    (info : service_node_info) (block_height : Nat)
    (events : List rollback_event) (infos : List (Nat × service_node_info)) :
    Bool × List rollback_event × List (Nat × service_node_info) :=
  match infos.find? (fun p => p.1 == key) with
  | some p =>
    if 5 ≤ hf then
      if block_height < p.2.registration_height + lock_blocks then
        (false, events, infos)
      else
        (true,
         rollback_event.rollback_new block_height key :: events,
         set_key key
           { info with last_reward_block_height := p.2.last_reward_block_height,
                       last_reward_transaction_index :=
                         p.2.last_reward_transaction_index }
           infos)
    else (false, events, infos)
  | none =>
    (true, rollback_event.rollback_new block_height key :: events,
     set_key key info infos)

/-- Pre-existing registry entry for the C5 scenario: registered at height 0,
last rewarded at block 3, transaction index 2. -/
def c5_old_info : service_node_info :=
  { registration_height := 0, last_reward_block_height := 3,
    last_reward_transaction_index := 2 }

/-- Entry produced by `is_registration_tx` for the re-registration at block
height 10, transaction index 1. -/
def c5_new_info : service_node_info :=
  { registration_height := 10, last_reward_block_height := 10,
    last_reward_transaction_index := 1 }

/-- Registry entry actually stored by the grace-period re-registration:
`c5_new_info` with the old entry's `last_reward` fields preserved. -/
def c5_regrace_info : service_node_info :=
  { registration_height := 10, last_reward_block_height := 3,
    last_reward_transaction_index := 2 }

/-- C5: the claimed detach/re-apply round trip fails after a grace-period
re-registration, although every rollback event of height >= 10 stays
journalled and no `prevent_rollback` of height >= 10 is encountered.
Starting from the snapshot `[(7, c5_old_info)]` at height 10 (lock period
10 blocks, hard fork 5), processing the re-registration journals
`rollback_new` while overwriting the existing entry, so
`blockchain_detached 10` erases the entry instead of restoring
`c5_old_info`: the detached registry is `[]`, not the snapshot; and
re-applying the same registration takes the fresh-registration path,
storing `c5_new_info` instead of the original `c5_regrace_info`, so the
replayed state is not bitwise-equal to the recorded one. -/
theorem blockchain_detached_grace_reregistration_divergence :
    process_registration_tx 5 10 7 c5_new_info 10
        [.prevent_rollback 0] [(7, c5_old_info)] =
      (true, [.rollback_new 10 7, .prevent_rollback 0], [(7, c5_regrace_info)]) ∧
    blockchain_detached 10
        [.rollback_new 10 7, .prevent_rollback 0] [(7, c5_regrace_info)] =
      some ([.prevent_rollback 0], []) ∧
    ([] : List (Nat × service_node_info)) ≠ [(7, c5_old_info)] ∧
    process_registration_tx 5 10 7 c5_new_info 10 [.prevent_rollback 0] [] =
      (true, [.rollback_new 10 7, .prevent_rollback 0], [(7, c5_new_info)]) ∧
    c5_new_info ≠ c5_regrace_info := by decide

end Equilibria

